import Mathlib

/-!
# Keyboard profile dialog: shortcut validation, row population and profile assembly

A shallow embedding of `src/ui/preferences/KeyboardProfileDialog.cpp`.

The item model behind the table view is a list of rows; a `QModelIndex` into it is the row
number.  A `QKeySequence` is represented by its portable text (the value of `toString()`), so
`isEmpty()` is "the text is empty" and building a sequence from its own text gives it back.
A `QVariantMap` is the list of its entries in key order, so that `==` on maps is equality of
lists.  The actions registry, the shortcut policy and the dialog's single-key switch are outside
the file; they are gathered in `Collaborators` and every function that consults them takes them
as an argument.
-/

namespace Otter

/-- The entries of a `QVariantMap`, in key order. -/
abbrev QVariantMap := List (String × String)

/-- A `QKeySequence`, by its portable text; the empty text is the empty sequence. -/
abbrev QKeySequence := String

/-- The value kept under `StatusRole` in the first column (`KeyboardProfileDialog::ShortcutStatus`). -/
inductive ShortcutStatus where
  | NormalStatus
  | WarningStatus
  | ErrorStatus
deriving DecidableEq, Repr

/-- The grouping record of `getProfile` (`KeyboardProfileDialog::ShortcutsDefinition`):
aggregate initialisation order is parameters, shortcuts, disabledShortcuts. -/
structure ShortcutsDefinition where
  parameters : QVariantMap
  shortcuts : List QKeySequence
  disabledShortcuts : List QKeySequence
deriving DecidableEq, Repr

/-- The persisted unit, `KeyboardProfile::Action`. -/
structure Action where
  action : Int
  parameters : QVariantMap
  shortcuts : List QKeySequence
  disabledShortcuts : List QKeySequence
deriving DecidableEq, Repr

/-- What the dialog reads from an `ActionsManager::ActionDefinition`: `getText(true)`,
`isValid()` and whether `category` is `EditingCategory`. -/
structure ActionDefinition where
  text : String
  valid : Bool
  editing : Bool
deriving DecidableEq, Repr

/-- The collaborators of the dialog: `ActionsManager::getActionDefinition`,
`ActionsManager::isShortcutAllowed` under `DisallowStandardShortcutCheck` and under
`DisallowSingleKeyShortcutCheck`, and the member `m_areSingleKeyShortcutsAllowed`. -/
structure Collaborators where
  getActionDefinition : Int → ActionDefinition
  isStandardShortcutAllowed : QKeySequence → Bool
  isSingleKeyShortcutAllowed : QKeySequence → Bool
  areSingleKeyShortcutsAllowed : Bool

/-- One row of the item model, by the data its four items carry.
* `status`, `toolTip`: column 0, `StatusRole` and `Qt::ToolTipRole`;
* `text`: column 1, `Qt::DisplayRole`;
* `identifier`: column 1, `IdentifierRole`; `none` when the role was never set (a row made by
  `addNewShortcut`), which `QVariant::toInt()` reads as `0`;
* `parameters`: column 1, `ParametersRole` through `toMap()` (empty when never set);
* `shortcut`: column 3, `Qt::DisplayRole` through `toString()` (empty when the data is a null
  `QVariant`);
* `isDisabled`: column 3, `IsDisabledRole`. -/
structure Row where
  status : ShortcutStatus
  toolTip : String
  text : String
  identifier : Option Int
  parameters : QVariantMap
  shortcut : String
  isDisabled : Bool
deriving DecidableEq, Repr

/-- The call `data(IdentifierRole).toInt()` on a row: `QVariant::toInt()` of a variant that
holds no value is `0`. -/
def Row.identifierToInt (row : Row) : Int :=
  row.identifier.getD 0

/-! ## The ordered map `QMap<int, T>`

The map is the list of its entries in ascending key order.  Search and assignment walk the list
the way an ordered search does: they stop at the first key that is not below the wanted one. -/

/-- The value stored under a key-ordered list, `QMap::value`/`QMap::contains`. -/
def qmapValue {α : Type} (key : Int) : List (Int × α) → Option α
  | [] => none
  | (k, v) :: rest =>
    if key < k then none
    else if key = k then some v
    else qmapValue key rest

/-- The assignment `map[key] = value`: replaces the value of an existing key, otherwise adds the
entry at its place in key order. -/
def qmapInsert {α : Type} (key : Int) (value : α) : List (Int × α) → List (Int × α)
  | [] => [(key, value)]
  | (k, v) :: rest =>
    if key < k then (key, value) :: (k, v) :: rest
    else if key = k then (key, value) :: rest
    else (k, v) :: qmapInsert key value rest

/-! ## Profile assembly: `KeyboardProfileDialog::getProfile` -/

namespace KeyboardProfileDialog

/-- The loop over `actionVariants` in `getProfile` (lines 365-384): the first variant whose
parameters equal the row's gets the shortcut appended to its disabled or enabled list, and the
loop breaks.  `none` is `hasMatch == false`. -/
def appendToVariant (parameters : QVariantMap) (isDisabled : Bool) (shortcut : QKeySequence) :
    List ShortcutsDefinition → Option (List ShortcutsDefinition)
  | [] => none
  | v :: vs =>
    if v.parameters = parameters then
      if isDisabled then
        some ({ v with disabledShortcuts := v.disabledShortcuts ++ [shortcut] } :: vs)
      else
        some ({ v with shortcuts := v.shortcuts ++ [shortcut] } :: vs)
    else
      (appendToVariant parameters isDisabled shortcut vs).map (fun rest => v :: rest)

/-- One pass of the row loop of `getProfile` (lines 342-398) on the map `actions`. -/
def processRow (actions : List (Int × List ShortcutsDefinition)) (row : Row) :
    List (Int × List ShortcutsDefinition) :=
  if row.status = ShortcutStatus.ErrorStatus then actions
  else
    let shortcut : QKeySequence := row.shortcut
    let action : Int := row.identifierToInt
    if action < 0 ∨ shortcut = "" then actions
    else
      let parameters := row.parameters
      let isDisabled := row.isDisabled
      let matched : Option (List ShortcutsDefinition) :=
        match qmapValue action actions with
        | some actionVariants => appendToVariant parameters isDisabled shortcut actionVariants
        | none => none
      match matched with
      | some actionVariants => qmapInsert action actionVariants actions
      | none =>
        if isDisabled then
          qmapInsert action [{ parameters := parameters, shortcuts := [], disabledShortcuts := [shortcut] }] actions
        else
          qmapInsert action [{ parameters := parameters, shortcuts := [shortcut], disabledShortcuts := [] }] actions

/-- The map `actions` after the row loop of `getProfile`. -/
def collectActions (rows : List Row) : List (Int × List ShortcutsDefinition) :=
  rows.foldl processRow []

/-- The second loop of `getProfile` (lines 404-418): every variant of every key, in key order,
becomes one `KeyboardProfile::Action`. -/
def toDefinitions (actions : List (Int × List ShortcutsDefinition)) : List Action :=
  actions.flatMap (fun entry =>
    entry.2.map (fun variant =>
      { action := entry.1, parameters := variant.parameters, shortcuts := variant.shortcuts,
        disabledShortcuts := variant.disabledShortcuts }))

/-- The function `KeyboardProfileDialog::getProfile`, by the definitions it stores for the generic context.
The title, description, version and author of the returned profile are copied from the line
edits and play no part here. -/
def getProfile (rows : List Row) : List Action :=
  toDefinitions (collectActions rows)

/-! ## Validation: `KeyboardProfileDialog::validateShortcut` -/

/-- The search `model->match(model->index(0, 3), Qt::DisplayRole, value, hits, Qt::MatchExactly)`:
the row numbers, from row `row` on, of the first `hits` rows whose shortcut column holds exactly
`value`; the walk ends as soon as `hits` results are found. -/
def matchFrom (value : String) : Nat → Nat → List Row → List Nat
  | 0, _, _ => []
  | _ + 1, _, [] => []
  | hits + 1, row, item :: rest =>
    if item.shortcut = value then row :: matchFrom value hits (row + 1) rest
    else matchFrom value (hits + 1) (row + 1) rest

/-- The list `indexes` of `validateShortcut` after lines 435-436: at most two matches from the
top of the model, with the validated row taken out by `removeAll`. -/
def conflictingIndexes (rows : List Row) (shortcut : QKeySequence) (index : Nat) : List Nat :=
  (matchFrom shortcut 2 0 rows).filter (fun matched => matched ≠ index)

/-- The messages `validateShortcut` collects, before translation. -/
inductive Message where
  | alreadyUsed (action : String)
  | nativeHotkey
  | singleKeyDisabled
deriving DecidableEq, Repr

/-- The source text of a message (the argument of `tr`, with `%1` filled in). -/
def Message.text : Message → String
  | Message.alreadyUsed action => "This shortcut already used by " ++ action
  | Message.nativeHotkey =>
    "This shortcut cannot be used because it would be overriden by a native hotkey used by an editing action"
  | Message.singleKeyDisabled => "Single key shortcuts are currently disabled"

/-- The join `messages.join(QLatin1Char('\n'))`. -/
def joinLines : List String → String
  | [] => ""
  | [line] => line
  | line :: next :: rest => line ++ "\n" ++ joinLines (next :: rest)

/-- The value `KeyboardProfileDialog::ValidationResult`; `icon` is the name handed to
`ThemesManager::createIcon`, `none` for the null icon. -/
structure ValidationResult where
  text : String := ""
  icon : Option String := none
  isError : Bool := false
deriving DecidableEq, Repr

/-- The identifier read at `index.sibling(index.row(), 1).data(IdentifierRole).toInt()`; an
index outside the model has no data and reads `0`. -/
def identifierAt (rows : List Row) (index : Nat) : Int :=
  match rows[index]? with
  | some row => row.identifierToInt
  | none => 0

/-- The argument of `%1` at line 443 for the row `matchedIndex`: the text of the action whose
identifier the row carries, or `unknown action` when that definition is not valid. -/
def usedByLabel (ctx : Collaborators) (rows : List Row) (matchedIndex : Nat) : String :=
  let definition := ctx.getActionDefinition (identifierAt rows matchedIndex)
  if definition.valid then definition.text else "unknown action"

/-- The first check of `validateShortcut` (lines 438-446): a message when `indexes` is not empty,
naming the action of its first row. -/
def conflictCheck (ctx : Collaborators) (rows : List Row) (shortcut : QKeySequence) (index : Nat) :
    Option Message :=
  match conflictingIndexes rows shortcut index with
  | [] => none
  | matchedIndex :: _ => some (Message.alreadyUsed (usedByLabel ctx rows matchedIndex))

/-- The conflict search as the specification words it: all rows whose shortcut column holds
exactly the candidate, the validated row excluded, with no bound on the number of matches. -/
def specConflictingIndexes (rows : List Row) (shortcut : QKeySequence) (index : Nat) : List Nat :=
  (rows.enum.filter (fun entry => decide (entry.2.shortcut = shortcut ∧ entry.1 ≠ index))).map
    Prod.fst

/-- The second check of `validateShortcut` (lines 448-458): the standard-shortcut policy refuses
the shortcut and the row's own action is not a valid editing action. -/
def nativeCheck (ctx : Collaborators) (rows : List Row) (shortcut : QKeySequence) (index : Nat) :
    Bool :=
  if !ctx.isStandardShortcutAllowed shortcut then
    let definition := ctx.getActionDefinition (identifierAt rows index)
    !definition.valid || !definition.editing
  else false

/-- The third check of `validateShortcut` (line 460). -/
def singleKeyCheck (ctx : Collaborators) (shortcut : QKeySequence) : Bool :=
  !ctx.areSingleKeyShortcutsAllowed && !ctx.isSingleKeyShortcutAllowed shortcut

/-- The locals `messages` and `result.isError` of `validateShortcut` when line 465 is reached. -/
def runChecks (ctx : Collaborators) (rows : List Row) (shortcut : QKeySequence) (index : Nat) :
    List Message × Bool :=
  let afterConflict : List Message × Bool :=
    match conflictCheck ctx rows shortcut index with
    | some message => ([message], true)
    | none => ([], false)
  let afterNative : List Message × Bool :=
    if nativeCheck ctx rows shortcut index then
      (afterConflict.1 ++ [Message.nativeHotkey], true)
    else afterConflict
  if singleKeyCheck ctx shortcut then
    (afterNative.1 ++ [Message.singleKeyDisabled], afterNative.2)
  else afterNative

/-- The function `KeyboardProfileDialog::validateShortcut` (lines 426-472): the empty result
for an empty shortcut; otherwise the three checks, and the text, icon and error flag built from
their messages. -/
def validateShortcut (ctx : Collaborators) (rows : List Row) (shortcut : QKeySequence) (index : Nat) :
    ValidationResult :=
  if shortcut = "" then {}
  else
    let checks := runChecks ctx rows shortcut index
    if checks.1 ≠ [] then
      { text := joinLines (checks.1.map Message.text),
        icon := some (if checks.2 then "dialog-error" else "dialog-warning"),
        isError := checks.2 }
    else
      { text := "", icon := none, isError := checks.2 }

/-- The status a row gets from a validation result (lines 159-170 and 309-314): normal when the
text is empty, otherwise error or warning by `isError`. -/
def statusOf (result : ValidationResult) : ShortcutStatus :=
  if result.text = "" then ShortcutStatus.NormalStatus
  else if result.isError then ShortcutStatus.ErrorStatus
  else ShortcutStatus.WarningStatus

/-! ## Row population: `addShortcuts`, the constructor, `addNewShortcut` -/

/-- The four items `addShortcuts` creates for one shortcut (lines 281-293): normal status, the
action's text, identifier and parameters, the text of the shortcut, and the disabled flag. -/
def createItems (identifier : Int) (text : String) (rawParameters : QVariantMap)
    (shortcut : QKeySequence) (areShortcutsDisabled : Bool) : Row :=
  { status := ShortcutStatus.NormalStatus, toolTip := "", text := text,
    identifier := some identifier, parameters := rawParameters, shortcut := shortcut,
    isDisabled := areShortcutsDisabled }

/-- The function `KeyboardProfileDialog::addShortcuts` (lines 274-316): the loop over `shortcuts`.  Each turn
appends a row with normal status; when the shortcuts are disabled the function returns at
line 304, right after the first row; otherwise the row just appended is validated and its
status, tool tip and icon are set from the result, and the loop goes on. -/
def addShortcuts (ctx : Collaborators) (model : List Row) (identifier : Int) (text : String)
    (rawParameters : QVariantMap) (shortcuts : List QKeySequence) (areShortcutsDisabled : Bool) :
    List Row :=
  match shortcuts with
  | [] => model
  | shortcut :: rest =>
    let item : Row := createItems identifier text rawParameters shortcut areShortcutsDisabled
    let appended := model ++ [item]
    if areShortcutsDisabled then appended
    else
      let result := validateShortcut ctx appended shortcut model.length
      let validated :=
        if result.text ≠ "" then
          model ++ [{ item with status := statusOf result, toolTip := result.text }]
        else appended
      addShortcuts ctx validated identifier text rawParameters rest areShortcutsDisabled

/-- The loop of the constructor over the definitions of the generic context (lines 214-221). -/
def populateModel (ctx : Collaborators) (definitions : List Action) : List Row :=
  definitions.foldl (fun model definition =>
    let action := ctx.getActionDefinition definition.action
    let enabled := addShortcuts ctx model definition.action action.text definition.parameters
      definition.shortcuts false
    addShortcuts ctx enabled definition.action action.text definition.parameters
      definition.disabledShortcuts true) []

/-- The call `model->sort(1)` (line 225): a stable ascending sort on the text of the action
column, texts compared character by character. -/
def sortByText (rows : List Row) : List Row :=
  rows.insertionSort (fun a b => ¬ (b.text.toList < a.text.toList))

/-- The rows of the model when the constructor `KeyboardProfileDialog::KeyboardProfileDialog`
is done with it (lines 211-227). -/
def KeyboardProfileDialog (ctx : Collaborators) (definitions : List Action) : List Row :=
  sortByText (populateModel ctx definitions)

/-- The row built by `KeyboardProfileDialog::addNewShortcut` (lines 320-326): normal status, and
no text, identifier, parameters or shortcut. -/
def newShortcutRow (isDisabled : Bool) : Row :=
  { status := ShortcutStatus.NormalStatus, toolTip := "", text := "", identifier := none,
    parameters := [], shortcut := "", isDisabled := isDisabled }

/-- The function `KeyboardProfileDialog::addNewShortcut`; `position` is where `ItemViewWidget::insertRow`
puts the row. -/
def addNewShortcut (rows : List Row) (position : Nat) (isDisabled : Bool) : List Row :=
  rows.insertIdx position (newShortcutRow isDisabled)

end KeyboardProfileDialog

/-! ## The delegates -/

/-- The function `KeyboardShortcutDelegate::setModelData` (lines 138-171) on the row `index`, the editor
holding `shortcut`: the shortcut is stored; a disabled row is left at that; any other row is
validated and gets its status and tool tip from the result. -/
def KeyboardShortcutDelegate.setModelData (ctx : Collaborators) (rows : List Row) (index : Nat)
    (shortcut : QKeySequence) : List Row :=
  match rows[index]? with
  | none => rows
  | some row =>
    let stored := rows.set index { row with shortcut := shortcut }
    if row.isDisabled then stored
    else
      let result := KeyboardProfileDialog.validateShortcut ctx stored shortcut index
      stored.set index
        { row with shortcut := shortcut, status := KeyboardProfileDialog.statusOf result,
                   toolTip := result.text }

/-- The function `KeyboardActionDelegate::setModelData` (lines 81-106) on the row `index`, the editor holding
the action `identifier`: nothing happens for an identifier that is not positive; otherwise the
text and the identifier of the row are replaced. -/
def KeyboardActionDelegate.setModelData (ctx : Collaborators) (rows : List Row) (index : Nat)
    (identifier : Int) : List Row :=
  if identifier ≤ 0 then rows
  else
    match rows[index]? with
    | none => rows
    | some row =>
      rows.set index
        { row with text := (ctx.getActionDefinition identifier).text, identifier := some identifier }

/-- What the user can do to the table: the two add buttons, the remove button, and a commit of
either delegate. -/
inductive UserEdit where
  | addNewShortcut (position : Nat) (isDisabled : Bool)
  | removeRow (index : Nat)
  | setAction (index : Nat) (identifier : Int)
  | setShortcut (index : Nat) (shortcut : QKeySequence)
deriving DecidableEq, Repr

/-- The model after one edit. -/
def applyEdit (ctx : Collaborators) (rows : List Row) : UserEdit → List Row
  | UserEdit.addNewShortcut position isDisabled =>
    KeyboardProfileDialog.addNewShortcut rows position isDisabled
  | UserEdit.removeRow index => rows.eraseIdx index
  | UserEdit.setAction index identifier => KeyboardActionDelegate.setModelData ctx rows index identifier
  | UserEdit.setShortcut index shortcut => KeyboardShortcutDelegate.setModelData ctx rows index shortcut

/-- The model after a sequence of edits, first edit first. -/
def applyEdits (ctx : Collaborators) (rows : List Row) (edits : List UserEdit) : List Row :=
  edits.foldl (applyEdit ctx) rows

/-! ## Uniqueness of the shortcuts in use -/

/-- Two rows do not clash: when both are enabled and hold the same non-empty shortcut string, one
of the two carries the error status. -/
def Row.noClash (a b : Row) : Prop :=
  a.isDisabled = false → b.isDisabled = false → a.shortcut ≠ "" → a.shortcut = b.shortcut →
    a.status = ShortcutStatus.ErrorStatus ∨ b.status = ShortcutStatus.ErrorStatus

/-- The shortcut strings in use in a table: those of the rows that are not disabled, not in
error and not empty, in row order. -/
def shortcutsInUse (rows : List Row) : List String :=
  (rows.filter (fun row =>
    !row.isDisabled && decide (row.status ≠ ShortcutStatus.ErrorStatus) &&
      decide (row.shortcut ≠ ""))).map Row.shortcut

/-- The enabled shortcuts of a list of definitions, entry after entry. -/
def enabledShortcuts (definitions : List Action) : List QKeySequence :=
  definitions.flatMap Action.shortcuts

/-- The enabled shortcuts held in the map `actions` of `getProfile`, key after key. -/
def enabledInMap (actions : List (Int × List ShortcutsDefinition)) : List QKeySequence :=
  actions.flatMap (fun entry => entry.2.flatMap ShortcutsDefinition.shortcuts)

/-- The row `addShortcuts` leaves in the model for an enabled shortcut (lines 300-314): `item`
is appended to `model`, validated there, and takes its status and tool tip from the result when
the result has a text. -/
def validatedItem (ctx : Collaborators) (model : List Row) (item : Row) : Row :=
  if (KeyboardProfileDialog.validateShortcut ctx (model ++ [item]) item.shortcut
        model.length).text ≠ "" then
    { item with
      status := KeyboardProfileDialog.statusOf
        (KeyboardProfileDialog.validateShortcut ctx (model ++ [item]) item.shortcut model.length),
      toolTip := (KeyboardProfileDialog.validateShortcut ctx (model ++ [item]) item.shortcut
        model.length).text }
  else item

/-- The outcome of the native check of `validateShortcut` for a row of the action `action`:
the standard-shortcut policy refuses the shortcut and the action is not a valid action of the
editing category. -/
def nativeCheckFor (ctx : Collaborators) (action : Int) (shortcut : QKeySequence) : Bool :=
  !ctx.isStandardShortcutAllowed shortcut &&
    !((ctx.getActionDefinition action).valid && (ctx.getActionDefinition action).editing)

/-- Among the rows of `model` that hold `shortcut`, only rows of the action `action` are enabled
and free of the error status; and some row of `model` holds `shortcut`. -/
def onlyFirstHolderLive (shortcut : QKeySequence) (action : Int) (model : List Row) : Prop :=
  (∃ row ∈ model, row.shortcut = shortcut) ∧
  ∀ row ∈ model, row.shortcut = shortcut → row.isDisabled = false →
    row.status ≠ ShortcutStatus.ErrorStatus → row.identifierToInt = action

/-- One turn of the constructor's loop over the definitions (lines 216-220): the rows of the
enabled shortcuts of the definition, then the rows of its disabled shortcuts. -/
def addDefinition (ctx : Collaborators) (model : List Row) (definition : Action) : List Row :=
  KeyboardProfileDialog.addShortcuts ctx
    (KeyboardProfileDialog.addShortcuts ctx model definition.action
      (ctx.getActionDefinition definition.action).text definition.parameters
      definition.shortcuts false)
    definition.action (ctx.getActionDefinition definition.action).text definition.parameters
    definition.disabledShortcuts true

/-! ## Sample data -/

/-- A small registry: three valid actions (`Copy` and `Paste` in the editing category, `Find`
outside it), a standard-shortcut policy that refuses only `Ctrl+C`, a single-key policy that
refuses texts of one character, and single-key shortcuts switched off. -/
def sampleCollaborators : Collaborators :=
  { getActionDefinition := fun identifier =>
      if identifier = 1 then { text := "Copy", valid := true, editing := true }
      else if identifier = 2 then { text := "Paste", valid := true, editing := true }
      else if identifier = 3 then { text := "Find", valid := true, editing := false }
      else { text := "", valid := false, editing := false },
    isStandardShortcutAllowed := fun shortcut => decide (shortcut ≠ "Ctrl+C"),
    isSingleKeyShortcutAllowed := fun shortcut => decide (shortcut.length ≠ 1),
    areSingleKeyShortcutsAllowed := false }

/-- A row with normal status, as `addShortcuts` first appends it. -/
def sampleRow (identifier : Int) (parameters : QVariantMap) (shortcut : QKeySequence)
    (isDisabled : Bool) : Row :=
  { status := ShortcutStatus.NormalStatus, toolTip := "",
    text := (sampleCollaborators.getActionDefinition identifier).text,
    identifier := some identifier, parameters := parameters, shortcut := shortcut,
    isDisabled := isDisabled }

/-- Two enabled rows of action 1 that differ in their parameters. -/
def twoVariantRows : List Row :=
  [sampleRow 1 [] "Ctrl+A" false, sampleRow 1 [("mode", "all")] "Ctrl+B" false]

/-- A profile whose only action has two disabled shortcuts. -/
def twoDisabledProfile : List Action :=
  [{ action := 1, parameters := [], shortcuts := [], disabledShortcuts := ["Ctrl+A", "Ctrl+B"] }]

/-- Two disabled rows of action 1 with the same parameters. -/
def twoDisabledRows : List Row :=
  [sampleRow 1 [] "Ctrl+A" true, sampleRow 1 [] "Ctrl+B" true]

/-- Three enabled rows of three actions, all on `F1`. -/
def threeOnF1 : List Row :=
  [sampleRow 1 [] "F1" false, sampleRow 2 [] "F1" false, sampleRow 3 [] "F1" false]

/-- A disabled row and an enabled row on `F1`. -/
def disabledThenEnabledOnF1 : List Row :=
  [sampleRow 1 [] "F1" true, sampleRow 2 [] "F1" false]

/-- A profile in which the actions 1 and 2 both carry the enabled shortcut `F1`. -/
def twoActionsOnF1 : List Action :=
  [{ action := 1, parameters := [], shortcuts := ["F1"], disabledShortcuts := [] },
   { action := 2, parameters := [], shortcuts := ["F1"], disabledShortcuts := [] }]

/-- The edits that build the table of a disabled and an enabled row on `F1` from the empty
table: a row is added, given the action 2 and the shortcut `F1`; then a disabled row is added
above it and given the action 1 and the shortcut `F1`. -/
def disabledLastEdits : List UserEdit :=
  [UserEdit.addNewShortcut 0 false, UserEdit.setAction 0 2, UserEdit.setShortcut 0 "F1",
   UserEdit.addNewShortcut 0 true, UserEdit.setAction 0 1, UserEdit.setShortcut 0 "F1"]

/-- The add button pressed on an empty table, then `Ctrl+K` committed to the new row. -/
def addedThenTyped : List Row :=
  applyEdits sampleCollaborators [] [UserEdit.addNewShortcut 0 false, UserEdit.setShortcut 0 "Ctrl+K"]

/-! ## Assembly on concrete tables -/

/-- C1, evaluated: on two kept rows of action 1 whose parameter sets differ, `getProfile`
returns one entry only, the one of the second row; the entry built for the first row (empty
parameters, `Ctrl+A`) has been replaced by the assignment at line 395. -/
theorem getProfile_replaces_earlier_variants_C1 :
    KeyboardProfileDialog.getProfile twoVariantRows =
      [{ action := 1, parameters := [("mode", "all")], shortcuts := ["Ctrl+B"],
         disabledShortcuts := [] }] := by
  decide

/-- C3, evaluated: for a profile whose action has the two disabled shortcuts `Ctrl+A` and
`Ctrl+B`, the constructor leaves one row in the model, for `Ctrl+A`; `addShortcuts` returns at
line 304 before `Ctrl+B` gets a row. -/
theorem constructor_keeps_first_disabled_only_C3 (ctx : Collaborators) :
    KeyboardProfileDialog.KeyboardProfileDialog ctx twoDisabledProfile =
      [{ status := ShortcutStatus.NormalStatus, toolTip := "",
         text := (ctx.getActionDefinition 1).text, identifier := some 1, parameters := [],
         shortcut := "Ctrl+A", isDisabled := true }] := by
  rfl

/-- C4, evaluated: the table of two disabled rows assembles to a profile `P` with one action and
the disabled shortcuts `Ctrl+A`, `Ctrl+B`; the constructor run on `P` seeds no row with error
status; assembling that model gives the disabled list `Ctrl+A` alone, which is not `P`. -/
theorem assemble_populate_assemble_loses_disabled_C4 :
    KeyboardProfileDialog.getProfile twoDisabledRows = twoDisabledProfile ∧
    (∀ row ∈ KeyboardProfileDialog.KeyboardProfileDialog sampleCollaborators
        (KeyboardProfileDialog.getProfile twoDisabledRows),
      row.status ≠ ShortcutStatus.ErrorStatus) ∧
    KeyboardProfileDialog.getProfile
        (KeyboardProfileDialog.KeyboardProfileDialog sampleCollaborators
          (KeyboardProfileDialog.getProfile twoDisabledRows)) =
      [{ action := 1, parameters := [], shortcuts := [], disabledShortcuts := ["Ctrl+A"] }] ∧
    KeyboardProfileDialog.getProfile
        (KeyboardProfileDialog.KeyboardProfileDialog sampleCollaborators
          (KeyboardProfileDialog.getProfile twoDisabledRows)) ≠
      KeyboardProfileDialog.getProfile twoDisabledRows := by
  decide

/-- C10, evaluated: a row made by `addNewShortcut` never gets an identifier; after `Ctrl+K` is
committed to it, it has normal status, and `getProfile` reads its identifier as `0`, passes the
test `action < 0` and returns an entry for action `0` with that shortcut. -/
theorem getProfile_keeps_row_without_identifier_C10 :
    addedThenTyped =
      [{ status := ShortcutStatus.NormalStatus, toolTip := "", text := "", identifier := none,
         parameters := [], shortcut := "Ctrl+K", isDisabled := false }] ∧
    KeyboardProfileDialog.getProfile addedThenTyped =
      [{ action := 0, parameters := [], shortcuts := ["Ctrl+K"], disabledShortcuts := [] }] := by
  decide

/-! ## The status of a row in assembly -/

theorem processRow_of_error (actions : List (Int × List ShortcutsDefinition)) (row : Row)
    (h : row.status = ShortcutStatus.ErrorStatus) :
    KeyboardProfileDialog.processRow actions row = actions := by
  simp [KeyboardProfileDialog.processRow, h]

theorem processRow_status_irrelevant (actions : List (Int × List ShortcutsDefinition)) (row : Row)
    (status : ShortcutStatus) (h : row.status ≠ ShortcutStatus.ErrorStatus)
    (hs : status ≠ ShortcutStatus.ErrorStatus) :
    KeyboardProfileDialog.processRow actions { row with status := status } =
      KeyboardProfileDialog.processRow actions row := by
  simp [KeyboardProfileDialog.processRow, h, hs, Row.identifierToInt]

theorem foldl_processRow_filter (rows : List Row) :
    ∀ actions : List (Int × List ShortcutsDefinition),
      rows.foldl KeyboardProfileDialog.processRow actions =
        (rows.filter (fun row => decide (row.status ≠ ShortcutStatus.ErrorStatus))).foldl
          KeyboardProfileDialog.processRow actions := by
  induction rows with
  | nil => intro actions; rfl
  | cons row rest ih =>
    intro actions
    by_cases h : row.status = ShortcutStatus.ErrorStatus
    · simp only [List.foldl_cons, processRow_of_error actions row h]
      rw [List.filter_cons_of_neg (by simp [h])]
      exact ih actions
    · rw [List.filter_cons_of_pos (by simp [h])]
      simp only [List.foldl_cons]
      exact ih _

theorem foldl_processRow_restatus (warn : Row → Bool) (rows : List Row) :
    ∀ actions : List (Int × List ShortcutsDefinition),
      (rows.map (fun row =>
          if row.status = ShortcutStatus.ErrorStatus then row
          else { row with status := (if warn row = true then ShortcutStatus.WarningStatus
                                     else ShortcutStatus.NormalStatus) })).foldl
        KeyboardProfileDialog.processRow actions =
      rows.foldl KeyboardProfileDialog.processRow actions := by
  induction rows with
  | nil => intro actions; rfl
  | cons row rest ih =>
    intro actions
    simp only [List.map_cons, List.foldl_cons]
    by_cases h : row.status = ShortcutStatus.ErrorStatus
    · rw [if_pos h]
      exact ih _
    · rw [if_neg h, processRow_status_irrelevant actions row _ h (by split <;> simp)]
      exact ih _

/-- C2: the status of a row reaches `getProfile` only through the test for `ErrorStatus`.  The
output on a table equals the output on the table with every error row removed, and giving the
rows that are not in error any mix of normal and warning status (`warn` picks which) leaves the
output as it is; so a warning row is kept exactly as a normal row is. -/
theorem getProfile_status_only_through_error_C2 (rows : List Row) (warn : Row → Bool) :
    KeyboardProfileDialog.getProfile rows =
      KeyboardProfileDialog.getProfile
        (rows.filter (fun row => decide (row.status ≠ ShortcutStatus.ErrorStatus))) ∧
    KeyboardProfileDialog.getProfile
        (rows.map (fun row =>
          if row.status = ShortcutStatus.ErrorStatus then row
          else { row with status := (if warn row = true then ShortcutStatus.WarningStatus
                                     else ShortcutStatus.NormalStatus) })) =
      KeyboardProfileDialog.getProfile rows := by
  constructor
  · unfold KeyboardProfileDialog.getProfile KeyboardProfileDialog.collectActions
    rw [foldl_processRow_filter rows []]
  · unfold KeyboardProfileDialog.getProfile KeyboardProfileDialog.collectActions
    rw [foldl_processRow_restatus warn rows []]

/-! ## The conflict search -/

/-- All the row numbers, from `row` on, whose shortcut column holds `value`. -/
theorem matchFrom_eq_take (value : String) (rows : List Row) :
    ∀ hits row : Nat,
      KeyboardProfileDialog.matchFrom value hits row rows =
        (((rows.enumFrom row).filter (fun entry => decide (entry.2.shortcut = value))).map
          Prod.fst).take hits := by
  induction rows with
  | nil =>
    intro hits row
    cases hits <;> simp [KeyboardProfileDialog.matchFrom]
  | cons item rest ih =>
    intro hits row
    cases hits with
    | zero => simp [KeyboardProfileDialog.matchFrom]
    | succ hits =>
      by_cases h : item.shortcut = value
      · simp [KeyboardProfileDialog.matchFrom, h, List.enumFrom_cons, ih]
      · simp [KeyboardProfileDialog.matchFrom, h, List.enumFrom_cons, ih]

theorem head?_filter_take_two (index : Nat) :
    ∀ l : List Nat, l.Nodup →
      ((l.take 2).filter (fun matched => decide (matched ≠ index))).head? =
        (l.filter (fun matched => decide (matched ≠ index))).head?
  | [], _ => rfl
  | [a], _ => rfl
  | a :: b :: rest, h => by
    have hab : a ≠ b := by
      intro e
      subst e
      simp at h
    by_cases ha : a = index
    · have hb : b ≠ index := fun e => hab (ha.trans e.symm)
      simp [ha, hb, List.filter_cons]
    · simp [ha, List.filter_cons]

theorem nodup_matching_rows (value : String) (rows : List Row) :
    (((rows.enum).filter (fun entry => decide (entry.2.shortcut = value))).map Prod.fst).Nodup := by
  have hsub : (((rows.enum).filter (fun entry => decide (entry.2.shortcut = value))).map
      Prod.fst).Sublist ((rows.enum).map Prod.fst) :=
    List.Sublist.map _ (List.filter_sublist _)
  refine List.Nodup.sublist hsub ?_
  rw [List.enum, List.enumFrom_map_fst]
  exact List.nodup_range' _ _

theorem conflictingIndexes_eq (rows : List Row) (shortcut : QKeySequence) (index : Nat) :
    KeyboardProfileDialog.conflictingIndexes rows shortcut index =
      (((((rows.enum).filter (fun entry => decide (entry.2.shortcut = shortcut))).map
          Prod.fst).take 2).filter (fun matched => decide (matched ≠ index))) := by
  unfold KeyboardProfileDialog.conflictingIndexes
  rw [matchFrom_eq_take]
  rfl

theorem specConflictingIndexes_eq (rows : List Row) (shortcut : QKeySequence) (index : Nat) :
    KeyboardProfileDialog.specConflictingIndexes rows shortcut index =
      ((((rows.enum).filter (fun entry => decide (entry.2.shortcut = shortcut))).map
          Prod.fst).filter (fun matched => decide (matched ≠ index))) := by
  unfold KeyboardProfileDialog.specConflictingIndexes
  rw [List.filter_map, List.filter_filter]
  congr 1
  apply List.filter_congr
  intro entry _
  by_cases h1 : entry.2.shortcut = shortcut <;> by_cases h2 : entry.1 = index <;> simp [h1, h2]

theorem head?_conflictingIndexes (rows : List Row) (shortcut : QKeySequence) (index : Nat) :
    (KeyboardProfileDialog.conflictingIndexes rows shortcut index).head? =
      (KeyboardProfileDialog.specConflictingIndexes rows shortcut index).head? := by
  rw [conflictingIndexes_eq, specConflictingIndexes_eq]
  exact head?_filter_take_two index _ (nodup_matching_rows shortcut rows)

theorem mem_specConflictingIndexes (rows : List Row) (shortcut : QKeySequence) (index j : Nat) :
    j ∈ KeyboardProfileDialog.specConflictingIndexes rows shortcut index ↔
      ∃ row, j ≠ index ∧ rows[j]? = some row ∧ row.shortcut = shortcut := by
  unfold KeyboardProfileDialog.specConflictingIndexes
  simp only [List.mem_map, List.mem_filter, decide_eq_true_eq]
  constructor
  · rintro ⟨⟨k, row⟩, ⟨hmem, hs, hk⟩, rfl⟩
    exact ⟨row, hk, List.mk_mem_enum_iff_getElem?.1 hmem, hs⟩
  · rintro ⟨row, hj, hrow, hs⟩
    exact ⟨(j, row), ⟨List.mk_mem_enum_iff_getElem?.2 hrow, hs, hj⟩, rfl⟩

theorem conflictingIndexes_ne_nil_iff (rows : List Row) (shortcut : QKeySequence) (index : Nat) :
    KeyboardProfileDialog.conflictingIndexes rows shortcut index ≠ [] ↔
      ∃ j row, j ≠ index ∧ rows[j]? = some row ∧ row.shortcut = shortcut := by
  rw [Ne, ← List.head?_eq_none_iff, head?_conflictingIndexes, List.head?_eq_none_iff]
  constructor
  · intro h
    obtain ⟨j, hj⟩ := List.exists_mem_of_ne_nil _ h
    exact ⟨j, (mem_specConflictingIndexes rows shortcut index j).1 hj⟩
  · rintro ⟨j, hj⟩ h
    have := (mem_specConflictingIndexes rows shortcut index j).2 hj
    rw [h] at this
    simp at this

theorem conflictCheck_eq_spec (ctx : Collaborators) (rows : List Row) (shortcut : QKeySequence)
    (index : Nat) :
    KeyboardProfileDialog.conflictCheck ctx rows shortcut index =
      (KeyboardProfileDialog.specConflictingIndexes rows shortcut index).head?.map
        (fun matchedIndex =>
          KeyboardProfileDialog.Message.alreadyUsed (KeyboardProfileDialog.usedByLabel ctx rows matchedIndex)) := by
  rw [← head?_conflictingIndexes]
  unfold KeyboardProfileDialog.conflictCheck
  cases KeyboardProfileDialog.conflictingIndexes rows shortcut index <;> rfl

theorem conflictCheck_isSome_iff (ctx : Collaborators) (rows : List Row) (shortcut : QKeySequence)
    (index : Nat) :
    (KeyboardProfileDialog.conflictCheck ctx rows shortcut index).isSome = true ↔
      ∃ j row, j ≠ index ∧ rows[j]? = some row ∧ row.shortcut = shortcut := by
  rw [← conflictingIndexes_ne_nil_iff]
  unfold KeyboardProfileDialog.conflictCheck
  cases KeyboardProfileDialog.conflictingIndexes rows shortcut index <;> simp

/-- The messages of `runChecks`, check by check. -/
theorem runChecks_messages (ctx : Collaborators) (rows : List Row) (shortcut : QKeySequence)
    (index : Nat) :
    (KeyboardProfileDialog.runChecks ctx rows shortcut index).1 =
      (KeyboardProfileDialog.conflictCheck ctx rows shortcut index).toList ++
      (if KeyboardProfileDialog.nativeCheck ctx rows shortcut index = true
        then [KeyboardProfileDialog.Message.nativeHotkey] else []) ++
      (if KeyboardProfileDialog.singleKeyCheck ctx shortcut = true
        then [KeyboardProfileDialog.Message.singleKeyDisabled] else []) := by
  unfold KeyboardProfileDialog.runChecks
  cases KeyboardProfileDialog.conflictCheck ctx rows shortcut index <;>
    cases KeyboardProfileDialog.nativeCheck ctx rows shortcut index <;>
    cases KeyboardProfileDialog.singleKeyCheck ctx shortcut <;> simp

/-- The error flag of `runChecks`: the conflict check or the native check fired. -/
theorem runChecks_isError (ctx : Collaborators) (rows : List Row) (shortcut : QKeySequence)
    (index : Nat) :
    (KeyboardProfileDialog.runChecks ctx rows shortcut index).2 =
      ((KeyboardProfileDialog.conflictCheck ctx rows shortcut index).isSome ||
        KeyboardProfileDialog.nativeCheck ctx rows shortcut index) := by
  unfold KeyboardProfileDialog.runChecks
  cases KeyboardProfileDialog.conflictCheck ctx rows shortcut index <;>
    cases KeyboardProfileDialog.nativeCheck ctx rows shortcut index <;>
    cases KeyboardProfileDialog.singleKeyCheck ctx shortcut <;> simp

theorem validateShortcut_isError (ctx : Collaborators) (rows : List Row) (shortcut : QKeySequence)
    (index : Nat) (hne : shortcut ≠ "") :
    (KeyboardProfileDialog.validateShortcut ctx rows shortcut index).isError =
      ((KeyboardProfileDialog.conflictCheck ctx rows shortcut index).isSome ||
        KeyboardProfileDialog.nativeCheck ctx rows shortcut index) := by
  unfold KeyboardProfileDialog.validateShortcut
  rw [if_neg hne, ← runChecks_isError]
  dsimp only
  split <;> rfl

theorem alreadyUsed_mem_runChecks_iff (ctx : Collaborators) (rows : List Row)
    (shortcut : QKeySequence) (index : Nat) :
    (∃ action, KeyboardProfileDialog.Message.alreadyUsed action ∈
        (KeyboardProfileDialog.runChecks ctx rows shortcut index).1) ↔
      (KeyboardProfileDialog.conflictCheck ctx rows shortcut index).isSome = true := by
  rw [runChecks_messages]
  have hform : ∀ m, KeyboardProfileDialog.conflictCheck ctx rows shortcut index = some m →
      ∃ action, m = KeyboardProfileDialog.Message.alreadyUsed action := by
    intro m hm
    unfold KeyboardProfileDialog.conflictCheck at hm
    split at hm
    · cases hm
    · exact ⟨_, (Option.some.inj hm).symm⟩
  cases hc : KeyboardProfileDialog.conflictCheck ctx rows shortcut index with
  | none =>
    simp only [Option.toList, List.nil_append, Option.isSome_none]
    constructor
    · rintro ⟨action, h⟩
      split_ifs at h <;> simp at h
    · intro h; cases h
  | some m =>
    obtain ⟨action, rfl⟩ := hform m hc
    simp only [Option.isSome_some, iff_true]
    exact ⟨action, by simp [Option.toList]⟩

theorem validateShortcut_text (ctx : Collaborators) (rows : List Row) (shortcut : QKeySequence)
    (index : Nat) (hne : shortcut ≠ "") :
    (KeyboardProfileDialog.validateShortcut ctx rows shortcut index).text =
      KeyboardProfileDialog.joinLines
        ((KeyboardProfileDialog.runChecks ctx rows shortcut index).1.map
          KeyboardProfileDialog.Message.text) := by
  unfold KeyboardProfileDialog.validateShortcut
  rw [if_neg hne]
  dsimp only
  split
  · rfl
  · rename_i h
    have h' : (KeyboardProfileDialog.runChecks ctx rows shortcut index).1 = [] := by
      simpa using h
    rw [h']
    rfl

/-- C6: for a non-empty candidate shortcut, the search of `validateShortcut` (at most two
matches, then the validated row removed) and the unbounded search of all rows other than the
validated one have the same first result, so the conflict check gives the same message with
either; the `already used` message is among the messages, with `isError` set, if and only if
some row other than the validated one holds exactly the candidate's shortcut string, whatever
the number of rows that share it. -/
theorem validateShortcut_conflict_iff_other_row_C6 (ctx : Collaborators) (rows : List Row)
    (index : Nat) (shortcut : QKeySequence) (hne : shortcut ≠ "") :
    (KeyboardProfileDialog.conflictingIndexes rows shortcut index).head? =
      (KeyboardProfileDialog.specConflictingIndexes rows shortcut index).head? ∧
    (KeyboardProfileDialog.conflictingIndexes rows shortcut index = [] ↔
      KeyboardProfileDialog.specConflictingIndexes rows shortcut index = []) ∧
    KeyboardProfileDialog.conflictCheck ctx rows shortcut index =
      (KeyboardProfileDialog.specConflictingIndexes rows shortcut index).head?.map
        (fun matchedIndex =>
          KeyboardProfileDialog.Message.alreadyUsed
            (KeyboardProfileDialog.usedByLabel ctx rows matchedIndex)) ∧
    (KeyboardProfileDialog.validateShortcut ctx rows shortcut index).text =
      KeyboardProfileDialog.joinLines
        ((KeyboardProfileDialog.runChecks ctx rows shortcut index).1.map
          KeyboardProfileDialog.Message.text) ∧
    (((∃ action, KeyboardProfileDialog.Message.alreadyUsed action ∈
          (KeyboardProfileDialog.runChecks ctx rows shortcut index).1) ∧
        (KeyboardProfileDialog.validateShortcut ctx rows shortcut index).isError = true) ↔
      ∃ j row, j ≠ index ∧ rows[j]? = some row ∧ row.shortcut = shortcut) := by
  refine ⟨head?_conflictingIndexes rows shortcut index, ?_, conflictCheck_eq_spec ctx rows shortcut index,
    validateShortcut_text ctx rows shortcut index hne, ?_⟩
  · rw [← List.head?_eq_none_iff, ← List.head?_eq_none_iff, head?_conflictingIndexes]
  · rw [alreadyUsed_mem_runChecks_iff, validateShortcut_isError ctx rows shortcut index hne,
      ← conflictCheck_isSome_iff ctx]
    constructor
    · exact fun h => h.1
    · intro h
      exact ⟨h, by simp [h]⟩

/-- C6 at a table of three rows that all hold `F1`, validating the last one. -/
theorem validateShortcut_conflict_iff_other_row_C6_witness :
    ("F1" : QKeySequence) ≠ "" ∧
    (((∃ action, KeyboardProfileDialog.Message.alreadyUsed action ∈
          (KeyboardProfileDialog.runChecks sampleCollaborators threeOnF1 "F1" 2).1) ∧
        (KeyboardProfileDialog.validateShortcut sampleCollaborators threeOnF1 "F1" 2).isError = true) ↔
      ∃ j row, j ≠ 2 ∧ threeOnF1[j]? = some row ∧ row.shortcut = "F1") :=
  ⟨by decide,
    (validateShortcut_conflict_iff_other_row_C6 sampleCollaborators threeOnF1 2 "F1"
      (by decide)).2.2.2.2⟩

/-! ## The verdict of `validateShortcut` -/

theorem validateShortcut_empty (ctx : Collaborators) (rows : List Row) (index : Nat) :
    KeyboardProfileDialog.validateShortcut ctx rows "" index = {} := by
  simp [KeyboardProfileDialog.validateShortcut]

theorem length_joinLines_cons (line : String) (rest : List String) :
    line.length ≤ (KeyboardProfileDialog.joinLines (line :: rest)).length := by
  cases rest with
  | nil => simp [KeyboardProfileDialog.joinLines]
  | cons next rest =>
    simp only [KeyboardProfileDialog.joinLines, String.length_append]
    omega

theorem length_message_text_pos (message : KeyboardProfileDialog.Message) :
    0 < message.text.length := by
  cases message with
  | alreadyUsed action =>
    have h : ("This shortcut already used by ").length = 30 := by decide
    simp only [KeyboardProfileDialog.Message.text, String.length_append, h]
    omega
  | nativeHotkey => decide
  | singleKeyDisabled => decide

theorem joinLines_messages_ne_empty (messages : List KeyboardProfileDialog.Message)
    (h : messages ≠ []) :
    KeyboardProfileDialog.joinLines (messages.map KeyboardProfileDialog.Message.text) ≠ "" := by
  cases messages with
  | nil => exact absurd rfl h
  | cons message rest =>
    intro hempty
    have h1 := length_joinLines_cons message.text (rest.map KeyboardProfileDialog.Message.text)
    have h2 := length_message_text_pos message
    rw [List.map_cons] at hempty
    rw [hempty] at h1
    have h3 : ("" : String).length = 0 := rfl
    omega

theorem runChecks_messages_eq_nil_iff (ctx : Collaborators) (rows : List Row)
    (shortcut : QKeySequence) (index : Nat) :
    (KeyboardProfileDialog.runChecks ctx rows shortcut index).1 = [] ↔
      ((KeyboardProfileDialog.conflictCheck ctx rows shortcut index).isSome = false ∧
        KeyboardProfileDialog.nativeCheck ctx rows shortcut index = false ∧
        KeyboardProfileDialog.singleKeyCheck ctx shortcut = false) := by
  rw [runChecks_messages]
  cases KeyboardProfileDialog.conflictCheck ctx rows shortcut index <;>
    cases KeyboardProfileDialog.nativeCheck ctx rows shortcut index <;>
    cases KeyboardProfileDialog.singleKeyCheck ctx shortcut <;> simp [Option.toList]

theorem validateShortcut_no_check (ctx : Collaborators) (rows : List Row)
    (shortcut : QKeySequence) (index : Nat)
    (hc : (KeyboardProfileDialog.conflictCheck ctx rows shortcut index).isSome = false)
    (hn : KeyboardProfileDialog.nativeCheck ctx rows shortcut index = false)
    (hk : KeyboardProfileDialog.singleKeyCheck ctx shortcut = false) :
    KeyboardProfileDialog.validateShortcut ctx rows shortcut index = {} := by
  by_cases hne : shortcut = ""
  · subst hne
    exact validateShortcut_empty ctx rows index
  · have hnil := (runChecks_messages_eq_nil_iff ctx rows shortcut index).2 ⟨hc, hn, hk⟩
    have herr := runChecks_isError ctx rows shortcut index
    rw [hc, hn] at herr
    unfold KeyboardProfileDialog.validateShortcut
    rw [if_neg hne]
    dsimp only
    rw [if_neg (by simp [hnil]), herr]
    rfl

theorem validateShortcut_text_ne_empty (ctx : Collaborators) (rows : List Row)
    (shortcut : QKeySequence) (index : Nat) (hne : shortcut ≠ "")
    (hfire : (KeyboardProfileDialog.conflictCheck ctx rows shortcut index).isSome = true ∨
      KeyboardProfileDialog.nativeCheck ctx rows shortcut index = true ∨
      KeyboardProfileDialog.singleKeyCheck ctx shortcut = true) :
    (KeyboardProfileDialog.validateShortcut ctx rows shortcut index).text ≠ "" := by
  rw [validateShortcut_text ctx rows shortcut index hne]
  apply joinLines_messages_ne_empty
  intro hnil
  obtain ⟨hc, hn, hk⟩ := (runChecks_messages_eq_nil_iff ctx rows shortcut index).1 hnil
  rcases hfire with h | h | h
  · rw [hc] at h; cases h
  · rw [hn] at h; cases h
  · rw [hk] at h; cases h

/-- C7: the verdict of `validateShortcut` in terms of its three checks.
* The native check is: the standard-shortcut policy refuses the shortcut and the row's action is
  not a valid action of the editing category.
* An empty shortcut gives the empty result, and so does a shortcut on which no check fires.
* For a non-empty shortcut on which some check fires, the text is not empty, and `isError` holds
  exactly when the conflict check or the native check fired.
* When the single-key check alone fires, the status the row gets is the warning status.
* `isError` is a function of the conflict and native checks alone: it is the same under any
  other setting of the single-key switch and of the single-key policy. -/
theorem validateShortcut_verdict_C7 (ctx : Collaborators) (rows : List Row)
    (shortcut : QKeySequence) (index : Nat) :
    (KeyboardProfileDialog.nativeCheck ctx rows shortcut index =
      (!ctx.isStandardShortcutAllowed shortcut &&
        !((ctx.getActionDefinition (KeyboardProfileDialog.identifierAt rows index)).valid &&
          (ctx.getActionDefinition (KeyboardProfileDialog.identifierAt rows index)).editing))) ∧
    KeyboardProfileDialog.validateShortcut ctx rows "" index = {} ∧
    ((KeyboardProfileDialog.conflictCheck ctx rows shortcut index).isSome = false →
      KeyboardProfileDialog.nativeCheck ctx rows shortcut index = false →
      KeyboardProfileDialog.singleKeyCheck ctx shortcut = false →
      KeyboardProfileDialog.validateShortcut ctx rows shortcut index = {}) ∧
    (shortcut ≠ "" →
      ((KeyboardProfileDialog.conflictCheck ctx rows shortcut index).isSome = true ∨
        KeyboardProfileDialog.nativeCheck ctx rows shortcut index = true ∨
        KeyboardProfileDialog.singleKeyCheck ctx shortcut = true) →
      (KeyboardProfileDialog.validateShortcut ctx rows shortcut index).text ≠ "" ∧
      ((KeyboardProfileDialog.validateShortcut ctx rows shortcut index).isError = true ↔
        ((KeyboardProfileDialog.conflictCheck ctx rows shortcut index).isSome = true ∨
          KeyboardProfileDialog.nativeCheck ctx rows shortcut index = true))) ∧
    (shortcut ≠ "" →
      (KeyboardProfileDialog.conflictCheck ctx rows shortcut index).isSome = false →
      KeyboardProfileDialog.nativeCheck ctx rows shortcut index = false →
      KeyboardProfileDialog.singleKeyCheck ctx shortcut = true →
      (KeyboardProfileDialog.validateShortcut ctx rows shortcut index).isError = false ∧
      KeyboardProfileDialog.statusOf
        (KeyboardProfileDialog.validateShortcut ctx rows shortcut index) =
          ShortcutStatus.WarningStatus) ∧
    (∀ (allowed : Bool) (policy : QKeySequence → Bool),
      (KeyboardProfileDialog.validateShortcut
        { ctx with areSingleKeyShortcutsAllowed := allowed, isSingleKeyShortcutAllowed := policy }
        rows shortcut index).isError =
      (KeyboardProfileDialog.validateShortcut ctx rows shortcut index).isError) := by
  refine ⟨?_, validateShortcut_empty ctx rows index, validateShortcut_no_check ctx rows shortcut index,
    ?_, ?_, ?_⟩
  · unfold KeyboardProfileDialog.nativeCheck
    cases ctx.isStandardShortcutAllowed shortcut <;> simp [Bool.not_and]
  · intro hne hfire
    refine ⟨validateShortcut_text_ne_empty ctx rows shortcut index hne hfire, ?_⟩
    rw [validateShortcut_isError ctx rows shortcut index hne, Bool.or_eq_true]
  · intro hne hc hn hk
    have herr : (KeyboardProfileDialog.validateShortcut ctx rows shortcut index).isError = false := by
      rw [validateShortcut_isError ctx rows shortcut index hne, hc, hn]
      rfl
    refine ⟨herr, ?_⟩
    unfold KeyboardProfileDialog.statusOf
    rw [if_neg (validateShortcut_text_ne_empty ctx rows shortcut index hne (Or.inr (Or.inr hk))),
      herr]
    rfl
  · intro allowed policy
    by_cases hne : shortcut = ""
    · subst hne
      rw [validateShortcut_empty, validateShortcut_empty]
    · rw [validateShortcut_isError _ rows shortcut index hne,
        validateShortcut_isError ctx rows shortcut index hne]
      rfl

/-- C7 at the single-key shortcut `A` alone in the table of the sample registry: only the
single-key check fires, and the verdict is a warning. -/
theorem validateShortcut_verdict_C7_witness :
    (KeyboardProfileDialog.validateShortcut sampleCollaborators [sampleRow 3 [] "A" false] "A" 0).isError
        = false ∧
    KeyboardProfileDialog.statusOf
      (KeyboardProfileDialog.validateShortcut sampleCollaborators [sampleRow 3 [] "A" false] "A" 0) =
        ShortcutStatus.WarningStatus :=
  (validateShortcut_verdict_C7 sampleCollaborators [sampleRow 3 [] "A" false] "A" 0).2.2.2.2.1
    (by decide) (by decide) (by decide) (by decide)

/-! ## Which row a conflict names -/

/-- C9, evaluated on the table of a disabled row (action `Copy`) and an enabled row (action
`Paste`) that both hold `F1`.
* The table is reached from the empty table by adding the enabled row, giving it the action and
  `F1`, then adding the disabled row above it and giving it the action and `F1`: the disabled
  row is never validated, so every row has the normal status.
* Row 1 is not disabled, its shortcut is not empty and no other non-disabled row holds it; yet
  the search of `validateShortcut` on row 1 finds the disabled row 0, and the result is the
  error that the shortcut is already used by `Copy`.
* `getProfile` saves both bindings from that table; the constructor run on the saved profile
  seeds the enabled row of `Paste` with the error status, in conflict with the disabled row, and
  the next `getProfile` has lost the enabled binding of `Paste`. -/
theorem validateShortcut_disabled_row_conflicts_C9 :
    applyEdits sampleCollaborators [] disabledLastEdits = disabledThenEnabledOnF1 ∧
    (∀ row ∈ disabledThenEnabledOnF1, row.status = ShortcutStatus.NormalStatus) ∧
    disabledThenEnabledOnF1[1]? = some (sampleRow 2 [] "F1" false) ∧
    (sampleRow 2 [] "F1" false).isDisabled = false ∧
    (sampleRow 2 [] "F1" false).shortcut ≠ "" ∧
    (∀ row ∈ disabledThenEnabledOnF1.eraseIdx 1,
      row.isDisabled = false → row.shortcut ≠ (sampleRow 2 [] "F1" false).shortcut) ∧
    KeyboardProfileDialog.conflictingIndexes disabledThenEnabledOnF1 "F1" 1 = [0] ∧
    KeyboardProfileDialog.runChecks sampleCollaborators disabledThenEnabledOnF1 "F1" 1 =
      ([KeyboardProfileDialog.Message.alreadyUsed "Copy"], true) ∧
    KeyboardProfileDialog.validateShortcut sampleCollaborators disabledThenEnabledOnF1 "F1" 1 =
      { text := "This shortcut already used by Copy", icon := some "dialog-error",
        isError := true } ∧
    KeyboardProfileDialog.getProfile disabledThenEnabledOnF1 =
      [{ action := 1, parameters := [], shortcuts := [], disabledShortcuts := ["F1"] },
       { action := 2, parameters := [], shortcuts := ["F1"], disabledShortcuts := [] }] ∧
    KeyboardProfileDialog.KeyboardProfileDialog sampleCollaborators
        (KeyboardProfileDialog.getProfile disabledThenEnabledOnF1) =
      [{ status := ShortcutStatus.NormalStatus, toolTip := "", text := "Copy",
         identifier := some 1, parameters := [], shortcut := "F1", isDisabled := true },
       { status := ShortcutStatus.ErrorStatus, toolTip := "This shortcut already used by Copy",
         text := "Paste", identifier := some 2, parameters := [], shortcut := "F1",
         isDisabled := false }] ∧
    KeyboardProfileDialog.getProfile
        (KeyboardProfileDialog.KeyboardProfileDialog sampleCollaborators
          (KeyboardProfileDialog.getProfile disabledThenEnabledOnF1)) =
      [{ action := 1, parameters := [], shortcuts := [], disabledShortcuts := ["F1"] }] := by
  decide

/-! ## Uniqueness of the shortcuts in use: the table -/

theorem noClash_symm {a b : Row} (h : Row.noClash a b) : Row.noClash b a := by
  intro hb ha hne heq
  have hne' : a.shortcut ≠ "" := by rw [← heq]; exact hne
  exact (h ha hb hne' heq.symm).symm

theorem noClash_of_disabled_right (a b : Row) (hb : b.isDisabled = true) : Row.noClash a b := by
  intro _ hb' _ _
  rw [hb] at hb'
  cases hb'

theorem noClash_of_empty_right (a b : Row) (hb : b.shortcut = "") : Row.noClash a b := by
  intro _ _ hne heq
  exact absurd (heq.trans hb) hne

/-- Replacing one row keeps the table free of clashes when the new row clashes with no other
row. -/
theorem pairwise_noClash_set (rows : List Row) (index : Nat) (row : Row)
    (hrows : rows.Pairwise Row.noClash)
    (hrow : ∀ m other, m ≠ index → rows[m]? = some other → Row.noClash other row) :
    (rows.set index row).Pairwise Row.noClash := by
  rw [List.pairwise_iff_getElem] at hrows ⊢
  intro i j hi hj hij
  rw [List.length_set] at hi hj
  rw [List.getElem_set, List.getElem_set]
  by_cases h1 : index = i
  · have h2 : ¬ index = j := by omega
    rw [if_pos h1, if_neg h2]
    exact noClash_symm (hrow j rows[j] (fun e => h2 e.symm) (List.getElem?_eq_getElem hj))
  · rw [if_neg h1]
    by_cases h2 : index = j
    · rw [if_pos h2]
      exact hrow i rows[i] (fun e => h1 e.symm) (List.getElem?_eq_getElem hi)
    · rw [if_neg h2]
      exact hrows i j hi hj hij

/-- A row validated while another row holds its non-empty shortcut gets the error status. -/
theorem statusOf_validateShortcut_of_other (ctx : Collaborators) (rows : List Row)
    (shortcut : QKeySequence) (index : Nat) (hne : shortcut ≠ "")
    (hother : ∃ m other, m ≠ index ∧ rows[m]? = some other ∧ other.shortcut = shortcut) :
    (KeyboardProfileDialog.validateShortcut ctx rows shortcut index).text ≠ "" ∧
    KeyboardProfileDialog.statusOf (KeyboardProfileDialog.validateShortcut ctx rows shortcut index) =
      ShortcutStatus.ErrorStatus := by
  have hsome := (conflictCheck_isSome_iff ctx rows shortcut index).2 hother
  have htext := validateShortcut_text_ne_empty ctx rows shortcut index hne (Or.inl hsome)
  refine ⟨htext, ?_⟩
  unfold KeyboardProfileDialog.statusOf
  rw [if_neg htext, validateShortcut_isError ctx rows shortcut index hne, hsome]
  rfl

theorem pairwise_noClash_append_singleton (model : List Row) (item : Row)
    (hmodel : model.Pairwise Row.noClash) (hitem : ∀ other ∈ model, Row.noClash other item) :
    (model ++ [item]).Pairwise Row.noClash := by
  rw [List.pairwise_append]
  refine ⟨hmodel, List.pairwise_singleton _ _, ?_⟩
  intro a ha b hb
  rw [List.mem_singleton] at hb
  subst hb
  exact hitem a ha

theorem noClash_validated_item (ctx : Collaborators) (model : List Row) (item : Row)
    (other : Row) (hmem : other ∈ model) :
    Row.noClash other
      (if (KeyboardProfileDialog.validateShortcut ctx (model ++ [item]) item.shortcut
            model.length).text ≠ "" then
        { item with
          status := KeyboardProfileDialog.statusOf
            (KeyboardProfileDialog.validateShortcut ctx (model ++ [item]) item.shortcut
              model.length),
          toolTip := (KeyboardProfileDialog.validateShortcut ctx (model ++ [item]) item.shortcut
            model.length).text }
      else item) := by
  obtain ⟨m, hm⟩ := List.mem_iff_getElem?.1 hmem
  have hlt : m < model.length := by
    rcases List.getElem?_eq_some.1 hm with ⟨h, _⟩
    exact h
  have hget : (model ++ [item])[m]? = some other := by
    rw [List.getElem?_append_left hlt]
    exact hm
  by_cases hne : item.shortcut = ""
  · split
    · exact noClash_of_empty_right other _ hne
    · exact noClash_of_empty_right other _ hne
  · split
    · intro _ _ _ heq
      right
      exact (statusOf_validateShortcut_of_other ctx _ item.shortcut model.length hne
        ⟨m, other, by omega, hget, heq⟩).2
    · rename_i htext
      intro _ _ _ heq
      exfalso
      exact htext (statusOf_validateShortcut_of_other ctx _ item.shortcut model.length hne
        ⟨m, other, by omega, hget, heq⟩).1

theorem pairwise_noClash_addShortcuts (ctx : Collaborators) (identifier : Int) (text : String)
    (rawParameters : QVariantMap) (areShortcutsDisabled : Bool) (shortcuts : List QKeySequence) :
    ∀ model : List Row, model.Pairwise Row.noClash →
      (KeyboardProfileDialog.addShortcuts ctx model identifier text rawParameters shortcuts
        areShortcutsDisabled).Pairwise Row.noClash := by
  induction shortcuts with
  | nil =>
    intro model hmodel
    unfold KeyboardProfileDialog.addShortcuts
    exact hmodel
  | cons shortcut rest ih =>
    intro model hmodel
    unfold KeyboardProfileDialog.addShortcuts
    cases hdis : areShortcutsDisabled with
    | true =>
      simp only [if_true]
      exact pairwise_noClash_append_singleton model _ hmodel
        (fun other _ => noClash_of_disabled_right other _ rfl)
    | false =>
      simp only [Bool.false_eq_true, if_false]
      have ih' := ih
      rw [hdis] at ih'
      apply ih'
      have key := noClash_validated_item ctx model
        (KeyboardProfileDialog.createItems identifier text rawParameters shortcut false)
      split
      · apply pairwise_noClash_append_singleton model _ hmodel
        intro other hmem
        have := key other hmem
        rw [if_pos (by assumption)] at this
        exact this
      · apply pairwise_noClash_append_singleton model _ hmodel
        intro other hmem
        have := key other hmem
        rw [if_neg (by assumption)] at this
        exact this

theorem pairwise_noClash_populateModel (ctx : Collaborators) (definitions : List Action) :
    (KeyboardProfileDialog.populateModel ctx definitions).Pairwise Row.noClash := by
  unfold KeyboardProfileDialog.populateModel
  have hgen : ∀ (defs : List Action) (model : List Row), model.Pairwise Row.noClash →
      (defs.foldl (fun model definition =>
        let action := ctx.getActionDefinition definition.action
        let enabled := KeyboardProfileDialog.addShortcuts ctx model definition.action action.text
          definition.parameters definition.shortcuts false
        KeyboardProfileDialog.addShortcuts ctx enabled definition.action action.text
          definition.parameters definition.disabledShortcuts true) model).Pairwise Row.noClash := by
    intro defs
    induction defs with
    | nil => intro model h; exact h
    | cons definition rest ih =>
      intro model h
      rw [List.foldl_cons]
      apply ih
      apply pairwise_noClash_addShortcuts
      apply pairwise_noClash_addShortcuts
      exact h
  exact hgen definitions [] List.Pairwise.nil

theorem pairwise_noClash_constructor (ctx : Collaborators) (definitions : List Action) :
    (KeyboardProfileDialog.KeyboardProfileDialog ctx definitions).Pairwise Row.noClash := by
  unfold KeyboardProfileDialog.KeyboardProfileDialog KeyboardProfileDialog.sortByText
  exact (List.Perm.pairwise_iff (fun h => noClash_symm h) (List.perm_insertionSort _ _)).2
    (pairwise_noClash_populateModel ctx definitions)

theorem pairwise_noClash_addNewShortcut (rows : List Row) (position : Nat) (isDisabled : Bool)
    (hrows : rows.Pairwise Row.noClash) :
    (KeyboardProfileDialog.addNewShortcut rows position isDisabled).Pairwise Row.noClash := by
  unfold KeyboardProfileDialog.addNewShortcut
  by_cases hpos : position ≤ rows.length
  · refine (List.Perm.pairwise_iff (fun h => noClash_symm h)
      (List.perm_insertIdx (KeyboardProfileDialog.newShortcutRow isDisabled) rows hpos)).2 ?_
    rw [List.pairwise_cons]
    refine ⟨?_, hrows⟩
    intro other _
    exact noClash_symm (noClash_of_empty_right other _ rfl)
  · rw [List.insertIdx_of_length_lt _ _ _ (by omega)]
    exact hrows

theorem pairwise_noClash_setAction (ctx : Collaborators) (rows : List Row) (index : Nat)
    (identifier : Int) (hrows : rows.Pairwise Row.noClash) :
    (KeyboardActionDelegate.setModelData ctx rows index identifier).Pairwise Row.noClash := by
  unfold KeyboardActionDelegate.setModelData
  split
  · exact hrows
  · cases hrow : rows[index]? with
    | none => exact hrows
    | some row =>
      apply pairwise_noClash_set rows index _ hrows
      intro m other hm hother
      obtain ⟨hlt, hget⟩ := List.getElem?_eq_some.1 hrow
      obtain ⟨hlt', hget'⟩ := List.getElem?_eq_some.1 hother
      have hpair : Row.noClash other row := by
        rw [← hget, ← hget']
        rcases Nat.lt_or_gt_of_ne hm with h | h
        · exact (List.pairwise_iff_getElem.1 hrows) m index hlt' hlt h
        · exact noClash_symm ((List.pairwise_iff_getElem.1 hrows) index m hlt hlt' h)
      exact hpair

theorem pairwise_noClash_setShortcut (ctx : Collaborators) (rows : List Row) (index : Nat)
    (shortcut : QKeySequence) (hrows : rows.Pairwise Row.noClash) :
    (KeyboardShortcutDelegate.setModelData ctx rows index shortcut).Pairwise Row.noClash := by
  unfold KeyboardShortcutDelegate.setModelData
  cases hrow : rows[index]? with
  | none => exact hrows
  | some row =>
    dsimp only
    by_cases hdis : row.isDisabled = true
    · rw [if_pos hdis]
      apply pairwise_noClash_set rows index _ hrows
      intro m other _ _
      exact noClash_of_disabled_right other _ hdis
    · rw [if_neg hdis, List.set_set]
      apply pairwise_noClash_set rows index _ hrows
      intro m other hm hother
      by_cases hne : shortcut = ""
      · exact noClash_of_empty_right other _ hne
      · intro _ _ _ heq
        right
        have hget : (rows.set index { row with shortcut := shortcut })[m]? = some other := by
          rw [List.getElem?_set, if_neg (fun e => hm e.symm)]
          exact hother
        exact (statusOf_validateShortcut_of_other ctx _ shortcut index hne
          ⟨m, other, hm, hget, heq⟩).2

theorem pairwise_noClash_applyEdit (ctx : Collaborators) (rows : List Row) (edit : UserEdit)
    (hrows : rows.Pairwise Row.noClash) : (applyEdit ctx rows edit).Pairwise Row.noClash := by
  cases edit with
  | addNewShortcut position isDisabled =>
    exact pairwise_noClash_addNewShortcut rows position isDisabled hrows
  | removeRow index => exact List.Pairwise.sublist (List.eraseIdx_sublist rows index) hrows
  | setAction index identifier => exact pairwise_noClash_setAction ctx rows index identifier hrows
  | setShortcut index shortcut => exact pairwise_noClash_setShortcut ctx rows index shortcut hrows

theorem pairwise_noClash_applyEdits (ctx : Collaborators) (edits : List UserEdit) :
    ∀ rows : List Row, rows.Pairwise Row.noClash →
      (applyEdits ctx rows edits).Pairwise Row.noClash := by
  unfold applyEdits
  induction edits with
  | nil => intro rows h; exact h
  | cons edit rest ih =>
    intro rows h
    rw [List.foldl_cons]
    exact ih _ (pairwise_noClash_applyEdit ctx rows edit h)

/-- A table free of clashes has no shortcut string in use twice. -/
theorem nodup_shortcutsInUse (rows : List Row) (hrows : rows.Pairwise Row.noClash) :
    (shortcutsInUse rows).Nodup := by
  unfold shortcutsInUse
  rw [List.Nodup, List.pairwise_map]
  refine List.Pairwise.imp_of_mem ?_ (List.Pairwise.filter _ hrows)
  intro a b ha hb hab heq
  have ha' := (List.mem_filter.1 ha).2
  have hb' := (List.mem_filter.1 hb).2
  simp only [Bool.and_eq_true, Bool.not_eq_true', decide_eq_true_eq] at ha' hb'
  rcases hab ha'.1.1 hb'.1.1 ha'.2 heq with h | h
  · exact ha'.1.2 h
  · exact hb'.1.2 h

/-! ## Uniqueness of the shortcuts in use: the assembled profile -/

theorem enabledShortcuts_toDefinitions (actions : List (Int × List ShortcutsDefinition)) :
    enabledShortcuts (KeyboardProfileDialog.toDefinitions actions) = enabledInMap actions := by
  unfold enabledShortcuts KeyboardProfileDialog.toDefinitions enabledInMap
  induction actions with
  | nil => rfl
  | cons entry rest ih =>
    rw [List.flatMap_cons, List.flatMap_append, ih, List.flatMap_cons]
    congr 1
    generalize entry.2 = variants
    induction variants with
    | nil => rfl
    | cons variant more ihv =>
      rw [List.map_cons, List.flatMap_cons, ihv, List.flatMap_cons]

theorem enabledInMap_cons (entry : Int × List ShortcutsDefinition)
    (rest : List (Int × List ShortcutsDefinition)) :
    enabledInMap (entry :: rest) =
      entry.2.flatMap ShortcutsDefinition.shortcuts ++ enabledInMap rest := by
  unfold enabledInMap
  rw [List.flatMap_cons]

theorem perm_appendToVariant (parameters : QVariantMap) (isDisabled : Bool)
    (shortcut : QKeySequence) (variants : List ShortcutsDefinition) :
    ∀ updated, KeyboardProfileDialog.appendToVariant parameters isDisabled shortcut variants =
        some updated →
      (updated.flatMap ShortcutsDefinition.shortcuts).Perm
        ((if isDisabled = true then [] else [shortcut]) ++
          variants.flatMap ShortcutsDefinition.shortcuts) := by
  induction variants with
  | nil =>
    intro updated h
    simp [KeyboardProfileDialog.appendToVariant] at h
  | cons variant rest ih =>
    intro updated h
    unfold KeyboardProfileDialog.appendToVariant at h
    by_cases hp : variant.parameters = parameters
    · rw [if_pos hp] at h
      cases isDisabled with
      | true =>
        simp only [if_true] at h
        cases h
        simp [List.flatMap_cons]
      | false =>
        simp only [Bool.false_eq_true, if_false] at h
        cases h
        simp only [List.flatMap_cons, if_false, Bool.false_eq_true]
        rw [List.append_assoc]
        refine List.Perm.trans (List.perm_append_comm_assoc _ _ _) ?_
        rw [← List.append_assoc]
    · rw [if_neg hp] at h
      cases hrec : KeyboardProfileDialog.appendToVariant parameters isDisabled shortcut rest with
      | none => rw [hrec] at h; cases h
      | some more =>
        rw [hrec] at h
        cases h
        rw [List.flatMap_cons, List.flatMap_cons]
        refine List.Perm.trans (List.Perm.append_left _ (ih more hrec)) ?_
        exact List.perm_append_comm_assoc _ _ _

theorem subperm_enabledInMap_qmapInsert (key : Int) (variants : List ShortcutsDefinition)
    (actions : List (Int × List ShortcutsDefinition)) :
    (enabledInMap (qmapInsert key variants actions)).Subperm
      (variants.flatMap ShortcutsDefinition.shortcuts ++ enabledInMap actions) := by
  induction actions with
  | nil =>
    unfold qmapInsert
    rw [enabledInMap_cons]
  | cons entry rest ih =>
    obtain ⟨k, v⟩ := entry
    unfold qmapInsert
    by_cases h1 : key < k
    · rw [if_pos h1, enabledInMap_cons]
    · rw [if_neg h1]
      by_cases h2 : key = k
      · rw [if_pos h2, enabledInMap_cons, enabledInMap_cons]
        rw [List.subperm_append_left]
        exact (List.sublist_append_right _ _).subperm
      · rw [if_neg h2, enabledInMap_cons, enabledInMap_cons]
        refine List.Subperm.trans ((List.subperm_append_left _).2 ih) ?_
        exact (List.perm_append_comm_assoc _ _ _).subperm

theorem subperm_enabledInMap_qmapInsert_of_value (key : Int) (variants old : List ShortcutsDefinition)
    (extra : List QKeySequence)
    (hvariants : (variants.flatMap ShortcutsDefinition.shortcuts).Subperm
      (extra ++ old.flatMap ShortcutsDefinition.shortcuts))
    (actions : List (Int × List ShortcutsDefinition)) (hold : qmapValue key actions = some old) :
    (enabledInMap (qmapInsert key variants actions)).Subperm (extra ++ enabledInMap actions) := by
  induction actions with
  | nil => simp [qmapValue] at hold
  | cons entry rest ih =>
    obtain ⟨k, v⟩ := entry
    unfold qmapValue at hold
    unfold qmapInsert
    by_cases h1 : key < k
    · rw [if_pos h1] at hold
      cases hold
    · rw [if_neg h1] at hold
      rw [if_neg h1]
      by_cases h2 : key = k
      · rw [if_pos h2] at hold
        cases hold
        rw [if_pos h2, enabledInMap_cons, enabledInMap_cons, ← List.append_assoc]
        exact (List.subperm_append_right _).2 hvariants
      · rw [if_neg h2] at hold
        rw [if_neg h2, enabledInMap_cons, enabledInMap_cons]
        refine List.Subperm.trans ((List.subperm_append_left _).2 (ih hold)) ?_
        exact (List.perm_append_comm_assoc _ _ _).subperm

theorem subperm_enabledInMap_processRow (actions : List (Int × List ShortcutsDefinition))
    (row : Row) :
    (enabledInMap (KeyboardProfileDialog.processRow actions row)).Subperm
      ((if (!row.isDisabled && decide (row.status ≠ ShortcutStatus.ErrorStatus) &&
            decide (row.shortcut ≠ "")) = true then [row.shortcut] else []) ++
        enabledInMap actions) := by
  have hskip : ∀ extra : List QKeySequence,
      (enabledInMap actions).Subperm (extra ++ enabledInMap actions) :=
    fun extra => (List.sublist_append_right _ _).subperm
  unfold KeyboardProfileDialog.processRow
  by_cases herr : row.status = ShortcutStatus.ErrorStatus
  · rw [if_pos herr]
    exact hskip _
  · rw [if_neg herr]
    dsimp only
    by_cases hout : row.identifierToInt < 0 ∨ row.shortcut = ""
    · rw [if_pos hout]
      exact hskip _
    · rw [if_neg hout]
      have hs : row.shortcut ≠ "" := fun h => hout (Or.inr h)
      have hlive : (if (!row.isDisabled && decide (row.status ≠ ShortcutStatus.ErrorStatus) &&
            decide (row.shortcut ≠ "")) = true then [row.shortcut] else []) =
          (if row.isDisabled = true then [] else [row.shortcut]) := by
        cases row.isDisabled <;> simp [herr, hs]
      rw [hlive]
      have hnew : (enabledInMap
          (if row.isDisabled = true then
            qmapInsert row.identifierToInt
              [{ parameters := row.parameters, shortcuts := [],
                 disabledShortcuts := [row.shortcut] }] actions
          else
            qmapInsert row.identifierToInt
              [{ parameters := row.parameters, shortcuts := [row.shortcut],
                 disabledShortcuts := [] }] actions)).Subperm
          ((if row.isDisabled = true then [] else [row.shortcut]) ++ enabledInMap actions) := by
        by_cases hd : row.isDisabled = true
        · rw [if_pos hd, if_pos hd]
          exact subperm_enabledInMap_qmapInsert _ _ _
        · rw [if_neg hd, if_neg hd]
          exact subperm_enabledInMap_qmapInsert _ _ _
      cases hv : qmapValue row.identifierToInt actions with
      | none => exact hnew
      | some old =>
        dsimp only
        cases ha : KeyboardProfileDialog.appendToVariant row.parameters row.isDisabled
            row.shortcut old with
        | none => exact hnew
        | some updated =>
          dsimp only
          exact subperm_enabledInMap_qmapInsert_of_value _ updated old _
            (perm_appendToVariant _ _ _ old updated ha).subperm actions hv

theorem subperm_enabledInMap_foldl (rows : List Row) :
    ∀ actions : List (Int × List ShortcutsDefinition),
      (enabledInMap (rows.foldl KeyboardProfileDialog.processRow actions)).Subperm
        (shortcutsInUse rows ++ enabledInMap actions) := by
  induction rows with
  | nil =>
    intro actions
    exact List.Subperm.refl _
  | cons row rest ih =>
    intro actions
    rw [List.foldl_cons]
    refine List.Subperm.trans (ih _) ?_
    refine List.Subperm.trans
      ((List.subperm_append_left _).2 (subperm_enabledInMap_processRow actions row)) ?_
    refine List.Perm.subperm ?_
    rw [← List.append_assoc]
    refine List.Perm.append_right _ ?_
    unfold shortcutsInUse
    by_cases hlive : (!row.isDisabled && decide (row.status ≠ ShortcutStatus.ErrorStatus) &&
        decide (row.shortcut ≠ "")) = true
    · rw [if_pos hlive, List.filter_cons, if_pos hlive, List.map_cons]
      exact List.perm_append_comm
    · rw [if_neg hlive, List.filter_cons, if_neg hlive, List.append_nil]

theorem nodup_of_subperm {α : Type} {l₁ l₂ : List α} (h : l₁.Subperm l₂) (hnodup : l₂.Nodup) :
    l₁.Nodup := by
  obtain ⟨l, hperm, hsub⟩ := h
  exact hperm.nodup_iff.1 (hsub.nodup hnodup)

/-- The enabled shortcuts of the assembled profile are among the shortcuts in use in the table,
each at most as often as there. -/
theorem subperm_enabledShortcuts_getProfile (rows : List Row) :
    (enabledShortcuts (KeyboardProfileDialog.getProfile rows)).Subperm (shortcutsInUse rows) := by
  unfold KeyboardProfileDialog.getProfile KeyboardProfileDialog.collectActions
  rw [enabledShortcuts_toDefinitions]
  have h := subperm_enabledInMap_foldl rows []
  have hnil : enabledInMap [] = [] := rfl
  rw [hnil, List.append_nil] at h
  exact h

/-- C5: in every table reached from the constructor's model by row additions, row removals,
action commits and shortcut commits (each shortcut commit validating the edited row only), the
shortcut strings of the rows that are not disabled, not in error and not empty are pairwise
distinct; and the enabled shortcuts over all entries of the profile `getProfile` assembles from
that table are pairwise distinct. -/
theorem shortcuts_in_use_unique_C5 (ctx : Collaborators) (definitions : List Action)
    (edits : List UserEdit) :
    ((((applyEdits ctx (KeyboardProfileDialog.KeyboardProfileDialog ctx definitions) edits).filter
        (fun row => !row.isDisabled && decide (row.status ≠ ShortcutStatus.ErrorStatus) &&
          decide (row.shortcut ≠ ""))).map Row.shortcut).Nodup) ∧
    ((KeyboardProfileDialog.getProfile
        (applyEdits ctx (KeyboardProfileDialog.KeyboardProfileDialog ctx definitions) edits)).flatMap
      Action.shortcuts).Nodup := by
  have hinv := pairwise_noClash_applyEdits ctx edits _ (pairwise_noClash_constructor ctx definitions)
  have huse := nodup_shortcutsInUse _ hinv
  exact ⟨huse, nodup_of_subperm (subperm_enabledShortcuts_getProfile _) huse⟩

/-! ## The order of the assembled entries -/

theorem mem_keys_qmapInsert (key : Int) (variants : List ShortcutsDefinition)
    (actions : List (Int × List ShortcutsDefinition)) (entry : Int × List ShortcutsDefinition)
    (h : entry ∈ qmapInsert key variants actions) :
    entry.1 = key ∨ entry ∈ actions := by
  induction actions with
  | nil =>
    unfold qmapInsert at h
    rw [List.mem_singleton] at h
    left
    rw [h]
  | cons head rest ih =>
    obtain ⟨k, v⟩ := head
    unfold qmapInsert at h
    by_cases h1 : key < k
    · rw [if_pos h1] at h
      rcases List.mem_cons.1 h with e | hin
      · left; rw [e]
      · right; exact hin
    · rw [if_neg h1] at h
      by_cases h2 : key = k
      · rw [if_pos h2] at h
        rcases List.mem_cons.1 h with e | hin
        · left; rw [e]
        · right; exact List.mem_cons_of_mem _ hin
      · rw [if_neg h2] at h
        rcases List.mem_cons.1 h with e | hin
        · right; rw [e]; exact List.mem_cons_self _ _
        · rcases ih hin with e | hmem
          · left; exact e
          · right; exact List.mem_cons_of_mem _ hmem

/-- The assignment `map[key] = value` keeps the keys in strictly ascending order. -/
theorem pairwise_keys_qmapInsert (key : Int) (variants : List ShortcutsDefinition)
    (actions : List (Int × List ShortcutsDefinition))
    (h : actions.Pairwise (fun a b => a.1 < b.1)) :
    (qmapInsert key variants actions).Pairwise (fun a b => a.1 < b.1) := by
  induction actions with
  | nil =>
    unfold qmapInsert
    exact List.pairwise_singleton _ _
  | cons head rest ih =>
    obtain ⟨k, v⟩ := head
    rw [List.pairwise_cons] at h
    unfold qmapInsert
    by_cases h1 : key < k
    · rw [if_pos h1, List.pairwise_cons]
      refine ⟨?_, List.pairwise_cons.2 h⟩
      intro entry hentry
      rcases List.mem_cons.1 hentry with e | hin
      · rw [e]; exact h1
      · exact lt_trans h1 (h.1 entry hin)
    · rw [if_neg h1]
      by_cases h2 : key = k
      · rw [if_pos h2, List.pairwise_cons]
        refine ⟨?_, h.2⟩
        intro entry hentry
        rw [h2]
        exact h.1 entry hentry
      · rw [if_neg h2, List.pairwise_cons]
        refine ⟨?_, ih h.2⟩
        intro entry hentry
        rcases mem_keys_qmapInsert key variants rest entry hentry with e | hin
        · rw [e]
          exact lt_of_le_of_ne (not_lt.1 h1) (fun e' => h2 e'.symm)
        · exact h.1 entry hin

theorem pairwise_keys_processRow (actions : List (Int × List ShortcutsDefinition)) (row : Row)
    (h : actions.Pairwise (fun a b => a.1 < b.1)) :
    (KeyboardProfileDialog.processRow actions row).Pairwise (fun a b => a.1 < b.1) := by
  unfold KeyboardProfileDialog.processRow
  split
  · exact h
  · dsimp only
    split
    · exact h
    · split
      · exact pairwise_keys_qmapInsert _ _ _ h
      · split
        · exact pairwise_keys_qmapInsert _ _ _ h
        · exact pairwise_keys_qmapInsert _ _ _ h

theorem pairwise_keys_collectActions (rows : List Row) :
    (KeyboardProfileDialog.collectActions rows).Pairwise (fun a b => a.1 < b.1) := by
  unfold KeyboardProfileDialog.collectActions
  have hgen : ∀ (rows : List Row) (actions : List (Int × List ShortcutsDefinition)),
      actions.Pairwise (fun a b => a.1 < b.1) →
      (rows.foldl KeyboardProfileDialog.processRow actions).Pairwise (fun a b => a.1 < b.1) := by
    intro rows
    induction rows with
    | nil => intro actions h; exact h
    | cons row rest ih =>
      intro actions h
      rw [List.foldl_cons]
      exact ih _ (pairwise_keys_processRow actions row h)
  exact hgen rows [] List.Pairwise.nil

/-- C12: for every list of rows, whatever their order in the table, the entries of the profile
`getProfile` assembles stand in ascending order of action identifier: of two entries, the one
listed first has the identifier that is less than or equal to the other's. -/
theorem getProfile_entries_ascending_C12 (rows : List Row) :
    ((KeyboardProfileDialog.getProfile rows).map Action.action).Pairwise (fun a b => a ≤ b) := by
  unfold KeyboardProfileDialog.getProfile KeyboardProfileDialog.toDefinitions
  rw [List.pairwise_map, List.pairwise_flatMap]
  constructor
  · intro entry _
    rw [List.pairwise_map]
    exact List.pairwise_of_forall (fun _ _ => le_refl _)
  · refine List.Pairwise.imp ?_ (pairwise_keys_collectActions rows)
    intro a b hab x hx y hy
    obtain ⟨va, _, rfl⟩ := List.mem_map.1 hx
    obtain ⟨vb, _, rfl⟩ := List.mem_map.1 hy
    exact le_of_lt hab

/-! ## Rows seeded by the constructor for a shared shortcut -/

theorem addShortcuts_nil (ctx : Collaborators) (model : List Row) (identifier : Int)
    (text : String) (rawParameters : QVariantMap) (areShortcutsDisabled : Bool) :
    KeyboardProfileDialog.addShortcuts ctx model identifier text rawParameters []
      areShortcutsDisabled = model := by
  unfold KeyboardProfileDialog.addShortcuts
  rfl

theorem addShortcuts_cons_disabled (ctx : Collaborators) (model : List Row) (identifier : Int)
    (text : String) (rawParameters : QVariantMap) (shortcut : QKeySequence)
    (rest : List QKeySequence) :
    KeyboardProfileDialog.addShortcuts ctx model identifier text rawParameters (shortcut :: rest)
      true =
      model ++ [KeyboardProfileDialog.createItems identifier text rawParameters shortcut true] := by
  unfold KeyboardProfileDialog.addShortcuts
  rfl

theorem addShortcuts_cons_enabled (ctx : Collaborators) (model : List Row) (identifier : Int)
    (text : String) (rawParameters : QVariantMap) (shortcut : QKeySequence)
    (rest : List QKeySequence) :
    KeyboardProfileDialog.addShortcuts ctx model identifier text rawParameters (shortcut :: rest)
      false =
      KeyboardProfileDialog.addShortcuts ctx
        (model ++ [validatedItem ctx model
          (KeyboardProfileDialog.createItems identifier text rawParameters shortcut false)])
        identifier text rawParameters rest false := by
  conv_lhs => unfold KeyboardProfileDialog.addShortcuts
  simp only [Bool.false_eq_true, if_false]
  unfold validatedItem
  have hshortcut : (KeyboardProfileDialog.createItems identifier text rawParameters shortcut
      false).shortcut = shortcut := rfl
  rw [hshortcut]
  split_ifs <;> rfl

theorem validatedItem_fields (ctx : Collaborators) (model : List Row) (item : Row) :
    (validatedItem ctx model item).shortcut = item.shortcut ∧
    (validatedItem ctx model item).identifier = item.identifier ∧
    (validatedItem ctx model item).parameters = item.parameters ∧
    (validatedItem ctx model item).isDisabled = item.isDisabled := by
  unfold validatedItem
  split <;> exact ⟨rfl, rfl, rfl, rfl⟩

/-- An enabled row appended while another row holds its shortcut is seeded with the error
status. -/
theorem validatedItem_status_of_holder (ctx : Collaborators) (model : List Row) (item : Row)
    (hne : item.shortcut ≠ "") (hholder : ∃ other ∈ model, other.shortcut = item.shortcut) :
    (validatedItem ctx model item).status = ShortcutStatus.ErrorStatus := by
  obtain ⟨other, hmem, hs⟩ := hholder
  obtain ⟨m, hm⟩ := List.mem_iff_getElem?.1 hmem
  have hlt : m < model.length := by
    rcases List.getElem?_eq_some.1 hm with ⟨h, _⟩
    exact h
  have hget : (model ++ [item])[m]? = some other := by
    rw [List.getElem?_append_left hlt]
    exact hm
  have hval := statusOf_validateShortcut_of_other ctx (model ++ [item]) item.shortcut
    model.length hne ⟨m, other, by omega, hget, hs⟩
  unfold validatedItem
  rw [if_pos hval.1]
  exact hval.2

/-- An enabled row appended while no other row holds its shortcut is seeded with the error
status exactly when the native check fires for its own action. -/
theorem validatedItem_status_of_first (ctx : Collaborators) (model : List Row) (item : Row)
    (hne : item.shortcut ≠ "") (hnormal : item.status = ShortcutStatus.NormalStatus)
    (hfirst : ∀ other ∈ model, other.shortcut ≠ item.shortcut) :
    ((validatedItem ctx model item).status = ShortcutStatus.ErrorStatus ↔
      nativeCheckFor ctx item.identifierToInt item.shortcut = true) := by
  have hnone : (KeyboardProfileDialog.conflictCheck ctx (model ++ [item]) item.shortcut
      model.length).isSome = false := by
    rw [Bool.eq_false_iff]
    intro hsome
    obtain ⟨m, other, hm, hrow, hs⟩ :=
      (conflictCheck_isSome_iff ctx (model ++ [item]) item.shortcut model.length).1 hsome
    have hlt : m < (model ++ [item]).length := by
      rcases List.getElem?_eq_some.1 hrow with ⟨h, _⟩
      exact h
    rw [List.length_append, List.length_singleton] at hlt
    have hlt' : m < model.length := by omega
    rw [List.getElem?_append_left hlt'] at hrow
    exact hfirst other (List.getElem?_mem hrow) hs
  have hid : KeyboardProfileDialog.identifierAt (model ++ [item]) model.length =
      item.identifierToInt := by
    unfold KeyboardProfileDialog.identifierAt
    rw [List.getElem?_append_right (le_refl _)]
    simp
  have hnative : KeyboardProfileDialog.nativeCheck ctx (model ++ [item]) item.shortcut
      model.length = nativeCheckFor ctx item.identifierToInt item.shortcut := by
    unfold KeyboardProfileDialog.nativeCheck nativeCheckFor
    rw [hid]
    cases ctx.isStandardShortcutAllowed item.shortcut <;> simp [Bool.not_and]
  have herr := validateShortcut_isError ctx (model ++ [item]) item.shortcut model.length hne
  rw [hnone, hnative, Bool.false_or] at herr
  unfold validatedItem
  split
  · rename_i htext
    show KeyboardProfileDialog.statusOf _ = ShortcutStatus.ErrorStatus ↔ _
    unfold KeyboardProfileDialog.statusOf
    rw [if_neg htext, herr]
    cases nativeCheckFor ctx item.identifierToInt item.shortcut <;> simp
  · rename_i htext
    rw [hnormal]
    constructor
    · intro h; cases h
    · intro h
      exfalso
      apply htext
      apply validateShortcut_text_ne_empty ctx _ _ _ hne
      right; left
      rw [hnative]
      exact h

theorem mem_addShortcuts_of_mem (ctx : Collaborators) (identifier : Int) (text : String)
    (rawParameters : QVariantMap) (areShortcutsDisabled : Bool) (row : Row)
    (shortcuts : List QKeySequence) :
    ∀ model : List Row, row ∈ model →
      row ∈ KeyboardProfileDialog.addShortcuts ctx model identifier text rawParameters shortcuts
        areShortcutsDisabled := by
  cases areShortcutsDisabled with
  | true =>
    intro model hmem
    cases shortcuts with
    | nil => rw [addShortcuts_nil]; exact hmem
    | cons shortcut rest =>
      rw [addShortcuts_cons_disabled]
      exact List.mem_append_left _ hmem
  | false =>
    induction shortcuts with
    | nil => intro model hmem; rw [addShortcuts_nil]; exact hmem
    | cons shortcut rest ih =>
      intro model hmem
      rw [addShortcuts_cons_enabled]
      exact ih _ (List.mem_append_left _ hmem)

theorem shortcut_mem_of_mem_addShortcuts (ctx : Collaborators) (identifier : Int) (text : String)
    (rawParameters : QVariantMap) (areShortcutsDisabled : Bool) (row : Row)
    (shortcuts : List QKeySequence) :
    ∀ model : List Row,
      row ∈ KeyboardProfileDialog.addShortcuts ctx model identifier text rawParameters shortcuts
        areShortcutsDisabled →
      row ∈ model ∨ row.shortcut ∈ shortcuts := by
  cases areShortcutsDisabled with
  | true =>
    intro model hmem
    cases shortcuts with
    | nil => rw [addShortcuts_nil] at hmem; exact Or.inl hmem
    | cons shortcut rest =>
      rw [addShortcuts_cons_disabled] at hmem
      rcases List.mem_append.1 hmem with h | h
      · exact Or.inl h
      · rw [List.mem_singleton] at h
        right
        rw [h]
        exact List.mem_cons_self _ _
  | false =>
    induction shortcuts with
    | nil => intro model hmem; rw [addShortcuts_nil] at hmem; exact Or.inl hmem
    | cons shortcut rest ih =>
      intro model hmem
      rw [addShortcuts_cons_enabled] at hmem
      rcases ih _ hmem with h | h
      · rcases List.mem_append.1 h with h' | h'
        · exact Or.inl h'
        · rw [List.mem_singleton] at h'
          right
          rw [h', (validatedItem_fields ctx model _).1]
          exact List.mem_cons_self _ _
      · exact Or.inr (List.mem_cons_of_mem _ h)

theorem onlyFirstHolderLive_append (shortcut : QKeySequence) (action : Int) (model : List Row)
    (item : Row) (h : onlyFirstHolderLive shortcut action model)
    (hitem : item.shortcut = shortcut → item.isDisabled = false →
      item.status ≠ ShortcutStatus.ErrorStatus → item.identifierToInt = action) :
    onlyFirstHolderLive shortcut action (model ++ [item]) := by
  obtain ⟨⟨holder, hmem, hs⟩, hall⟩ := h
  refine ⟨⟨holder, List.mem_append_left _ hmem, hs⟩, ?_⟩
  intro row hrow
  rcases List.mem_append.1 hrow with h' | h'
  · exact hall row h'
  · rw [List.mem_singleton] at h'
    rw [h']
    exact hitem

/-- Once some row holds the shortcut, `addShortcuts` adds no enabled row on it that is free of
the error status. -/
theorem onlyFirstHolderLive_addShortcuts (ctx : Collaborators) (shortcut : QKeySequence)
    (hne : shortcut ≠ "") (action identifier : Int) (text : String)
    (rawParameters : QVariantMap) (areShortcutsDisabled : Bool) (shortcuts : List QKeySequence) :
    ∀ model : List Row, onlyFirstHolderLive shortcut action model →
      onlyFirstHolderLive shortcut action
        (KeyboardProfileDialog.addShortcuts ctx model identifier text rawParameters shortcuts
          areShortcutsDisabled) := by
  cases areShortcutsDisabled with
  | true =>
    intro model h
    cases shortcuts with
    | nil => rw [addShortcuts_nil]; exact h
    | cons head rest =>
      rw [addShortcuts_cons_disabled]
      apply onlyFirstHolderLive_append shortcut action model _ h
      intro _ hdis
      cases hdis
  | false =>
    induction shortcuts with
    | nil => intro model h; rw [addShortcuts_nil]; exact h
    | cons head rest ih =>
      intro model h
      rw [addShortcuts_cons_enabled]
      apply ih
      apply onlyFirstHolderLive_append shortcut action model _ h
      intro hs _ hstatus
      exfalso
      apply hstatus
      rw [(validatedItem_fields ctx model _).1] at hs
      have hitem : (KeyboardProfileDialog.createItems identifier text rawParameters head
          false).shortcut = shortcut := hs
      apply validatedItem_status_of_holder
      · rw [hitem]; exact hne
      · obtain ⟨holder, hmem, hh⟩ := h.1
        exact ⟨holder, hmem, hh.trans hitem.symm⟩

/-- The enabled row `addShortcuts` appends for a shortcut that some row already holds has the
error status. -/
theorem exists_error_row_addShortcuts (ctx : Collaborators) (shortcut : QKeySequence)
    (hne : shortcut ≠ "") (identifier : Int) (text : String) (rawParameters : QVariantMap)
    (shortcuts : List QKeySequence) :
    ∀ model : List Row, (∃ row ∈ model, row.shortcut = shortcut) → shortcut ∈ shortcuts →
      ∃ row ∈ KeyboardProfileDialog.addShortcuts ctx model identifier text rawParameters
          shortcuts false,
        row.identifier = some identifier ∧ row.parameters = rawParameters ∧
        row.shortcut = shortcut ∧ row.isDisabled = false ∧
        row.status = ShortcutStatus.ErrorStatus := by
  induction shortcuts with
  | nil => intro model _ hmem; cases hmem
  | cons head rest ih =>
    intro model hholder hmem
    rw [addShortcuts_cons_enabled]
    by_cases hhead : head = shortcut
    · subst hhead
      refine ⟨validatedItem ctx model
        (KeyboardProfileDialog.createItems identifier text rawParameters head false),
        mem_addShortcuts_of_mem ctx identifier text rawParameters false _ rest _
          (List.mem_append_right _ (List.mem_singleton_self _)), ?_⟩
      obtain ⟨h1, h2, h3, h4⟩ := validatedItem_fields ctx model
        (KeyboardProfileDialog.createItems identifier text rawParameters head false)
      refine ⟨h2, h3, h1, h4, ?_⟩
      exact validatedItem_status_of_holder ctx model _ hne hholder
    · have hrest : shortcut ∈ rest := by
        rcases List.mem_cons.1 hmem with h | h
        · exact absurd h.symm hhead
        · exact h
      obtain ⟨holder, hin, hs⟩ := hholder
      exact ih _ ⟨holder, List.mem_append_left _ hin, hs⟩ hrest

/-- The first enabled row `addShortcuts` appends for a shortcut that no row holds yet has the
error status exactly when the native check fires for its action; from then on only rows of
that action can be enabled, free of error and on the shortcut. -/
theorem first_row_addShortcuts (ctx : Collaborators) (shortcut : QKeySequence)
    (hne : shortcut ≠ "") (identifier : Int) (text : String) (rawParameters : QVariantMap)
    (shortcuts : List QKeySequence) :
    ∀ model : List Row, (∀ row ∈ model, row.shortcut ≠ shortcut) → shortcut ∈ shortcuts →
      onlyFirstHolderLive shortcut identifier
        (KeyboardProfileDialog.addShortcuts ctx model identifier text rawParameters shortcuts
          false) ∧
      ∃ row ∈ KeyboardProfileDialog.addShortcuts ctx model identifier text rawParameters
          shortcuts false,
        row.identifier = some identifier ∧ row.parameters = rawParameters ∧
        row.shortcut = shortcut ∧ row.isDisabled = false ∧
        (row.status = ShortcutStatus.ErrorStatus ↔
          nativeCheckFor ctx identifier shortcut = true) := by
  induction shortcuts with
  | nil => intro model _ hmem; cases hmem
  | cons head rest ih =>
    intro model hfree hmem
    rw [addShortcuts_cons_enabled]
    obtain ⟨h1, h2, h3, h4⟩ := validatedItem_fields ctx model
      (KeyboardProfileDialog.createItems identifier text rawParameters head false)
    by_cases hhead : head = shortcut
    · subst hhead
      have hlive : onlyFirstHolderLive head identifier
          (model ++ [validatedItem ctx model
            (KeyboardProfileDialog.createItems identifier text rawParameters head false)]) := by
        refine ⟨⟨_, List.mem_append_right _ (List.mem_singleton_self _), h1⟩, ?_⟩
        intro row hrow hs _ _
        rcases List.mem_append.1 hrow with h | h
        · exact absurd hs (hfree row h)
        · rw [List.mem_singleton] at h
          rw [h]
          unfold Row.identifierToInt
          rw [h2]
          rfl
      refine ⟨onlyFirstHolderLive_addShortcuts ctx head hne identifier identifier text
        rawParameters false rest _ hlive, ?_⟩
      refine ⟨validatedItem ctx model
        (KeyboardProfileDialog.createItems identifier text rawParameters head false),
        mem_addShortcuts_of_mem ctx identifier text rawParameters false _ rest _
          (List.mem_append_right _ (List.mem_singleton_self _)), h2, h3, h1, h4, ?_⟩
      exact validatedItem_status_of_first ctx model
        (KeyboardProfileDialog.createItems identifier text rawParameters head false) hne rfl hfree
    · have hrest : shortcut ∈ rest := by
        rcases List.mem_cons.1 hmem with h | h
        · exact absurd h.symm hhead
        · exact h
      apply ih _ _ hrest
      intro row hrow
      rcases List.mem_append.1 hrow with h | h
      · exact hfree row h
      · rw [List.mem_singleton] at h
        rw [h, h1]
        exact hhead

theorem populateModel_eq_foldl (ctx : Collaborators) (definitions : List Action) :
    KeyboardProfileDialog.populateModel ctx definitions =
      definitions.foldl (addDefinition ctx) [] := rfl

theorem mem_foldl_addDefinition_of_mem (ctx : Collaborators) (row : Row)
    (definitions : List Action) :
    ∀ model : List Row, row ∈ model → row ∈ definitions.foldl (addDefinition ctx) model := by
  induction definitions with
  | nil => intro model h; exact h
  | cons definition rest ih =>
    intro model h
    rw [List.foldl_cons]
    apply ih
    unfold addDefinition
    exact mem_addShortcuts_of_mem ctx _ _ _ _ row _ _
      (mem_addShortcuts_of_mem ctx _ _ _ _ row _ _ h)

theorem free_foldl_addDefinition (ctx : Collaborators) (shortcut : QKeySequence)
    (definitions : List Action) :
    ∀ model : List Row, (∀ row ∈ model, row.shortcut ≠ shortcut) →
      (∀ definition ∈ definitions,
        shortcut ∉ definition.shortcuts ∧ shortcut ∉ definition.disabledShortcuts) →
      ∀ row ∈ definitions.foldl (addDefinition ctx) model, row.shortcut ≠ shortcut := by
  induction definitions with
  | nil => intro model h _; exact h
  | cons definition rest ih =>
    intro model h hdefs
    rw [List.foldl_cons]
    apply ih
    · intro row hrow hs
      unfold addDefinition at hrow
      have hdef := hdefs definition (List.mem_cons_self _ _)
      rcases shortcut_mem_of_mem_addShortcuts ctx _ _ _ _ row _ _ hrow with h1 | h1
      · rcases shortcut_mem_of_mem_addShortcuts ctx _ _ _ _ row _ _ h1 with h2 | h2
        · exact h row h2 hs
        · rw [hs] at h2
          exact hdef.1 h2
      · rw [hs] at h1
        exact hdef.2 h1
    · intro d hd
      exact hdefs d (List.mem_cons_of_mem _ hd)

theorem onlyFirstHolderLive_addDefinition (ctx : Collaborators) (shortcut : QKeySequence)
    (hne : shortcut ≠ "") (action : Int) (model : List Row) (definition : Action)
    (h : onlyFirstHolderLive shortcut action model) :
    onlyFirstHolderLive shortcut action (addDefinition ctx model definition) := by
  unfold addDefinition
  exact onlyFirstHolderLive_addShortcuts ctx shortcut hne action _ _ _ true _ _
    (onlyFirstHolderLive_addShortcuts ctx shortcut hne action _ _ _ false _ _ h)

theorem onlyFirstHolderLive_foldl (ctx : Collaborators) (shortcut : QKeySequence)
    (hne : shortcut ≠ "") (action : Int) (definitions : List Action) :
    ∀ model : List Row, onlyFirstHolderLive shortcut action model →
      onlyFirstHolderLive shortcut action (definitions.foldl (addDefinition ctx) model) := by
  induction definitions with
  | nil => intro model h; exact h
  | cons definition rest ih =>
    intro model h
    rw [List.foldl_cons]
    exact ih _ (onlyFirstHolderLive_addDefinition ctx shortcut hne action model definition h)

theorem exists_error_row_foldl (ctx : Collaborators) (shortcut : QKeySequence)
    (hne : shortcut ≠ "") (action : Int) (later : Action) (hlater : shortcut ∈ later.shortcuts)
    (definitions : List Action) :
    ∀ model : List Row, onlyFirstHolderLive shortcut action model → later ∈ definitions →
      ∃ row ∈ definitions.foldl (addDefinition ctx) model,
        row.identifier = some later.action ∧ row.parameters = later.parameters ∧
        row.shortcut = shortcut ∧ row.isDisabled = false ∧
        row.status = ShortcutStatus.ErrorStatus := by
  induction definitions with
  | nil => intro model _ hmem; cases hmem
  | cons definition rest ih =>
    intro model h hmem
    rw [List.foldl_cons]
    rcases List.mem_cons.1 hmem with e | hin
    · subst e
      obtain ⟨row, hrow, hprops⟩ := exists_error_row_addShortcuts ctx shortcut hne later.action
        (ctx.getActionDefinition later.action).text later.parameters later.shortcuts model h.1
        hlater
      refine ⟨row, ?_, hprops⟩
      apply mem_foldl_addDefinition_of_mem
      unfold addDefinition
      exact mem_addShortcuts_of_mem ctx _ _ _ _ row _ _ hrow
    · exact ih _ (onlyFirstHolderLive_addDefinition ctx shortcut hne action model definition h) hin

/-- The model the constructor's loop builds for a profile `pre ++ first :: post` in which
`first` is the first definition to carry `shortcut`, in its enabled list. -/
theorem populateModel_shared_shortcut (ctx : Collaborators) (pre post : List Action)
    (first : Action) (shortcut : QKeySequence) (hne : shortcut ≠ "")
    (hpre : ∀ definition ∈ pre,
      shortcut ∉ definition.shortcuts ∧ shortcut ∉ definition.disabledShortcuts)
    (hfirst : shortcut ∈ first.shortcuts) :
    onlyFirstHolderLive shortcut first.action
      (KeyboardProfileDialog.populateModel ctx (pre ++ first :: post)) ∧
    ∃ row ∈ KeyboardProfileDialog.populateModel ctx (pre ++ first :: post),
      row.identifier = some first.action ∧ row.parameters = first.parameters ∧
      row.shortcut = shortcut ∧ row.isDisabled = false ∧
      (row.status = ShortcutStatus.ErrorStatus ↔
        nativeCheckFor ctx first.action shortcut = true) := by
  rw [populateModel_eq_foldl, List.foldl_append, List.foldl_cons]
  have hfree := free_foldl_addDefinition ctx shortcut pre [] (fun _ h => nomatch h) hpre
  obtain ⟨hlive, row, hrow, hprops⟩ := first_row_addShortcuts ctx shortcut hne first.action
    (ctx.getActionDefinition first.action).text first.parameters first.shortcuts _ hfree hfirst
  have hlive' : onlyFirstHolderLive shortcut first.action
      (addDefinition ctx (pre.foldl (addDefinition ctx) []) first) := by
    unfold addDefinition
    exact onlyFirstHolderLive_addShortcuts ctx shortcut hne first.action _ _ _ true _ _ hlive
  refine ⟨onlyFirstHolderLive_foldl ctx shortcut hne first.action post _ hlive', row, ?_, hprops⟩
  apply mem_foldl_addDefinition_of_mem
  unfold addDefinition
  exact mem_addShortcuts_of_mem ctx _ _ _ _ row _ _ hrow

/-! ## Where the enabled shortcuts of an entry come from -/

theorem mem_qmapInsert (key : Int) (variants : List ShortcutsDefinition)
    (actions : List (Int × List ShortcutsDefinition)) (entry : Int × List ShortcutsDefinition)
    (h : entry ∈ qmapInsert key variants actions) :
    entry = (key, variants) ∨ entry ∈ actions := by
  induction actions with
  | nil =>
    unfold qmapInsert at h
    rw [List.mem_singleton] at h
    exact Or.inl h
  | cons head rest ih =>
    obtain ⟨k, v⟩ := head
    unfold qmapInsert at h
    by_cases h1 : key < k
    · rw [if_pos h1] at h
      rcases List.mem_cons.1 h with e | hin
      · exact Or.inl e
      · exact Or.inr hin
    · rw [if_neg h1] at h
      by_cases h2 : key = k
      · rw [if_pos h2] at h
        rcases List.mem_cons.1 h with e | hin
        · exact Or.inl e
        · exact Or.inr (List.mem_cons_of_mem _ hin)
      · rw [if_neg h2] at h
        rcases List.mem_cons.1 h with e | hin
        · right; rw [e]; exact List.mem_cons_self _ _
        · rcases ih hin with e | hmem
          · exact Or.inl e
          · exact Or.inr (List.mem_cons_of_mem _ hmem)

theorem mem_of_qmapValue (key : Int) (old : List ShortcutsDefinition)
    (actions : List (Int × List ShortcutsDefinition)) (h : qmapValue key actions = some old) :
    (key, old) ∈ actions := by
  induction actions with
  | nil => simp [qmapValue] at h
  | cons head rest ih =>
    obtain ⟨k, v⟩ := head
    unfold qmapValue at h
    by_cases h1 : key < k
    · rw [if_pos h1] at h; cases h
    · rw [if_neg h1] at h
      by_cases h2 : key = k
      · rw [if_pos h2] at h
        cases h
        rw [h2]
        exact List.mem_cons_self _ _
      · rw [if_neg h2] at h
        exact List.mem_cons_of_mem _ (ih h)

theorem shortcuts_of_appendToVariant (parameters : QVariantMap) (isDisabled : Bool)
    (shortcut : QKeySequence) (variants : List ShortcutsDefinition) :
    ∀ updated, KeyboardProfileDialog.appendToVariant parameters isDisabled shortcut variants =
        some updated →
      ∀ variant ∈ updated, ∀ held ∈ variant.shortcuts,
        (∃ before ∈ variants, held ∈ before.shortcuts) ∨ (isDisabled = false ∧ held = shortcut) := by
  induction variants with
  | nil =>
    intro updated h
    simp [KeyboardProfileDialog.appendToVariant] at h
  | cons head rest ih =>
    intro updated h variant hvariant held hheld
    unfold KeyboardProfileDialog.appendToVariant at h
    by_cases hp : head.parameters = parameters
    · rw [if_pos hp] at h
      cases isDisabled with
      | true =>
        simp only [if_true] at h
        cases h
        rcases List.mem_cons.1 hvariant with e | hin
        · subst e
          exact Or.inl ⟨head, List.mem_cons_self _ _, hheld⟩
        · exact Or.inl ⟨variant, List.mem_cons_of_mem _ hin, hheld⟩
      | false =>
        simp only [Bool.false_eq_true, if_false] at h
        cases h
        rcases List.mem_cons.1 hvariant with e | hin
        · subst e
          rcases List.mem_append.1 hheld with h1 | h1
          · exact Or.inl ⟨head, List.mem_cons_self _ _, h1⟩
          · exact Or.inr ⟨rfl, List.mem_singleton.1 h1⟩
        · exact Or.inl ⟨variant, List.mem_cons_of_mem _ hin, hheld⟩
    · rw [if_neg hp] at h
      cases hrec : KeyboardProfileDialog.appendToVariant parameters isDisabled shortcut rest with
      | none => rw [hrec] at h; cases h
      | some more =>
        rw [hrec] at h
        cases h
        rcases List.mem_cons.1 hvariant with e | hin
        · subst e
          exact Or.inl ⟨variant, List.mem_cons_self _ _, hheld⟩
        · rcases ih more hrec variant hin held hheld with ⟨before, hb, hh⟩ | hnew
          · exact Or.inl ⟨before, List.mem_cons_of_mem _ hb, hh⟩
          · exact Or.inr hnew

theorem supported_processRow (S : Int → QKeySequence → Prop)
    (actions : List (Int × List ShortcutsDefinition)) (row : Row)
    (hactions : ∀ entry ∈ actions, ∀ variant ∈ entry.2, ∀ held ∈ variant.shortcuts,
      S entry.1 held)
    (hrow : row.status ≠ ShortcutStatus.ErrorStatus → row.isDisabled = false →
      S row.identifierToInt row.shortcut) :
    ∀ entry ∈ KeyboardProfileDialog.processRow actions row, ∀ variant ∈ entry.2,
      ∀ held ∈ variant.shortcuts, S entry.1 held := by
  unfold KeyboardProfileDialog.processRow
  by_cases herr : row.status = ShortcutStatus.ErrorStatus
  · rw [if_pos herr]
    exact hactions
  · rw [if_neg herr]
    dsimp only
    by_cases hout : row.identifierToInt < 0 ∨ row.shortcut = ""
    · rw [if_pos hout]
      exact hactions
    · rw [if_neg hout]
      have hnew : ∀ entry ∈
          (if row.isDisabled = true then
            qmapInsert row.identifierToInt
              [{ parameters := row.parameters, shortcuts := [],
                 disabledShortcuts := [row.shortcut] }] actions
          else
            qmapInsert row.identifierToInt
              [{ parameters := row.parameters, shortcuts := [row.shortcut],
                 disabledShortcuts := [] }] actions),
          ∀ variant ∈ entry.2, ∀ held ∈ variant.shortcuts, S entry.1 held := by
        intro entry hentry variant hvariant held hheld
        by_cases hd : row.isDisabled = true
        · rw [if_pos hd] at hentry
          rcases mem_qmapInsert _ _ _ _ hentry with e | hin
          · subst e
            rw [List.mem_singleton] at hvariant
            subst hvariant
            cases hheld
          · exact hactions entry hin variant hvariant held hheld
        · rw [if_neg hd] at hentry
          rcases mem_qmapInsert _ _ _ _ hentry with e | hin
          · subst e
            rw [List.mem_singleton] at hvariant
            subst hvariant
            rw [List.mem_singleton.1 hheld]
            exact hrow herr (by simpa using hd)
          · exact hactions entry hin variant hvariant held hheld
      cases hv : qmapValue row.identifierToInt actions with
      | none => exact hnew
      | some old =>
        dsimp only
        cases ha : KeyboardProfileDialog.appendToVariant row.parameters row.isDisabled
            row.shortcut old with
        | none => exact hnew
        | some updated =>
          dsimp only
          intro entry hentry variant hvariant held hheld
          rcases mem_qmapInsert _ _ _ _ hentry with e | hin
          · subst e
            rcases shortcuts_of_appendToVariant _ _ _ old updated ha variant hvariant held hheld
              with ⟨before, hb, hh⟩ | ⟨hd, hs⟩
            · exact hactions _ (mem_of_qmapValue _ _ _ hv) before hb held hh
            · rw [hs]
              exact hrow herr hd
          · exact hactions entry hin variant hvariant held hheld

theorem supported_foldl_processRow (S : Int → QKeySequence → Prop) (rows : List Row)
    (hrows : ∀ row ∈ rows, row.status ≠ ShortcutStatus.ErrorStatus → row.isDisabled = false →
      S row.identifierToInt row.shortcut) :
    ∀ actions : List (Int × List ShortcutsDefinition),
      (∀ entry ∈ actions, ∀ variant ∈ entry.2, ∀ held ∈ variant.shortcuts, S entry.1 held) →
      ∀ entry ∈ rows.foldl KeyboardProfileDialog.processRow actions, ∀ variant ∈ entry.2,
        ∀ held ∈ variant.shortcuts, S entry.1 held := by
  induction rows with
  | nil => intro actions h; exact h
  | cons row rest ih =>
    intro actions h
    rw [List.foldl_cons]
    apply ih (fun r hr => hrows r (List.mem_cons_of_mem _ hr))
    exact supported_processRow S actions row h (hrows row (List.mem_cons_self _ _))

/-- An enabled shortcut of an entry of the assembled profile is the shortcut of an enabled row
of that action that is not in error. -/
theorem exists_row_of_mem_getProfile (rows : List Row) (entry : Action)
    (hentry : entry ∈ KeyboardProfileDialog.getProfile rows) (held : QKeySequence)
    (hheld : held ∈ entry.shortcuts) :
    ∃ row ∈ rows, row.status ≠ ShortcutStatus.ErrorStatus ∧ row.isDisabled = false ∧
      row.shortcut = held ∧ row.identifierToInt = entry.action := by
  unfold KeyboardProfileDialog.getProfile KeyboardProfileDialog.toDefinitions at hentry
  obtain ⟨pair, hpair, hin⟩ := List.mem_flatMap.1 hentry
  obtain ⟨variant, hvariant, rfl⟩ := List.mem_map.1 hin
  have hsupp := supported_foldl_processRow
    (fun action shortcut => ∃ row ∈ rows, row.status ≠ ShortcutStatus.ErrorStatus ∧
      row.isDisabled = false ∧ row.shortcut = shortcut ∧ row.identifierToInt = action)
    rows (fun row hrow hstatus hdis => ⟨row, hrow, hstatus, hdis, rfl, rfl⟩) []
    (fun _ h => nomatch h)
  exact hsupp pair hpair variant hvariant held hheld

theorem mem_constructor_iff (ctx : Collaborators) (definitions : List Action) (row : Row) :
    row ∈ KeyboardProfileDialog.KeyboardProfileDialog ctx definitions ↔
      row ∈ KeyboardProfileDialog.populateModel ctx definitions := by
  unfold KeyboardProfileDialog.KeyboardProfileDialog KeyboardProfileDialog.sortByText
  exact List.mem_insertionSort _

/-- C11, as the code has it.  Take a profile `pre ++ first :: post` in which `first` is the
first definition that carries the non-empty `shortcut`, in its enabled list, and a definition
`later` of `post`, of another action, that carries it in its enabled list too.  In the model the
constructor builds:
* there is an enabled row of `later` on the shortcut, seeded with the error status;
* every enabled row of the action of `later` on the shortcut has the error status;
* there is an enabled row of `first` on the shortcut whose status is the error status exactly
  when the native check fires for the action of `first`: the rows that come after it do not put
  it in conflict;
* no entry that `getProfile` assembles from the model for the action of `later` has the
  shortcut in its enabled list. -/
theorem constructor_shared_shortcut_C11 (ctx : Collaborators) (pre post : List Action)
    (first later : Action) (shortcut : QKeySequence) (hne : shortcut ≠ "")
    (hpre : ∀ definition ∈ pre,
      shortcut ∉ definition.shortcuts ∧ shortcut ∉ definition.disabledShortcuts)
    (hfirst : shortcut ∈ first.shortcuts) (hmem : later ∈ post)
    (hlater : shortcut ∈ later.shortcuts) (hdiff : first.action ≠ later.action) :
    (∃ row ∈ KeyboardProfileDialog.KeyboardProfileDialog ctx (pre ++ first :: post),
      row.identifier = some later.action ∧ row.parameters = later.parameters ∧
      row.shortcut = shortcut ∧ row.isDisabled = false ∧
      row.status = ShortcutStatus.ErrorStatus) ∧
    (∀ row ∈ KeyboardProfileDialog.KeyboardProfileDialog ctx (pre ++ first :: post),
      row.shortcut = shortcut → row.isDisabled = false →
      row.identifierToInt = later.action → row.status = ShortcutStatus.ErrorStatus) ∧
    (∃ row ∈ KeyboardProfileDialog.KeyboardProfileDialog ctx (pre ++ first :: post),
      row.identifier = some first.action ∧ row.parameters = first.parameters ∧
      row.shortcut = shortcut ∧ row.isDisabled = false ∧
      (row.status = ShortcutStatus.ErrorStatus ↔
        nativeCheckFor ctx first.action shortcut = true)) ∧
    (∀ entry ∈ KeyboardProfileDialog.getProfile
        (KeyboardProfileDialog.KeyboardProfileDialog ctx (pre ++ first :: post)),
      entry.action = later.action → shortcut ∉ entry.shortcuts) := by
  obtain ⟨hlive, rowFirst, hrowFirst, hpropsFirst⟩ :=
    populateModel_shared_shortcut ctx pre post first shortcut hne hpre hfirst
  have hrows : ∀ row ∈ KeyboardProfileDialog.KeyboardProfileDialog ctx (pre ++ first :: post),
      row.shortcut = shortcut → row.isDisabled = false →
      row.identifierToInt = later.action → row.status = ShortcutStatus.ErrorStatus := by
    intro row hrow hs hdis hid
    by_contra hstatus
    have := hlive.2 row ((mem_constructor_iff ctx _ row).1 hrow) hs hdis hstatus
    exact hdiff (this.symm.trans hid)
  refine ⟨?_, hrows, ⟨rowFirst, (mem_constructor_iff ctx _ rowFirst).2 hrowFirst, hpropsFirst⟩, ?_⟩
  · have hlive1 : onlyFirstHolderLive shortcut first.action
        (addDefinition ctx (pre.foldl (addDefinition ctx) []) first) := by
      have h := populateModel_shared_shortcut ctx pre [] first shortcut hne hpre hfirst
      rw [populateModel_eq_foldl, List.foldl_append, List.foldl_cons, List.foldl_nil] at h
      exact h.1
    obtain ⟨row, hrow, hprops⟩ := exists_error_row_foldl ctx shortcut hne first.action later
      hlater post _ hlive1 hmem
    refine ⟨row, (mem_constructor_iff ctx _ row).2 ?_, hprops⟩
    rw [populateModel_eq_foldl, List.foldl_append, List.foldl_cons]
    exact hrow
  · intro entry hentry haction hheld
    obtain ⟨row, hrow, hstatus, hdis, hs, hid⟩ :=
      exists_row_of_mem_getProfile _ entry hentry shortcut hheld
    exact hstatus (hrows row hrow hs hdis (hid.trans haction))

/-- C11, as the code has it, at the profile in which the actions 1 and 2 both carry `F1`. -/
theorem constructor_shared_shortcut_C11_witness :
    (∃ row ∈ KeyboardProfileDialog.KeyboardProfileDialog sampleCollaborators twoActionsOnF1,
      row.identifier = some 2 ∧ row.parameters = [] ∧
      row.shortcut = "F1" ∧ row.isDisabled = false ∧
      row.status = ShortcutStatus.ErrorStatus) ∧
    (∀ row ∈ KeyboardProfileDialog.KeyboardProfileDialog sampleCollaborators twoActionsOnF1,
      row.shortcut = "F1" → row.isDisabled = false →
      row.identifierToInt = 2 → row.status = ShortcutStatus.ErrorStatus) ∧
    (∃ row ∈ KeyboardProfileDialog.KeyboardProfileDialog sampleCollaborators twoActionsOnF1,
      row.identifier = some 1 ∧ row.parameters = [] ∧
      row.shortcut = "F1" ∧ row.isDisabled = false ∧
      (row.status = ShortcutStatus.ErrorStatus ↔
        nativeCheckFor sampleCollaborators 1 "F1" = true)) ∧
    (∀ entry ∈ KeyboardProfileDialog.getProfile
        (KeyboardProfileDialog.KeyboardProfileDialog sampleCollaborators twoActionsOnF1),
      entry.action = 2 → "F1" ∉ entry.shortcuts) :=
  constructor_shared_shortcut_C11 sampleCollaborators []
    [{ action := 2, parameters := [], shortcuts := ["F1"], disabledShortcuts := [] }]
    { action := 1, parameters := [], shortcuts := ["F1"], disabledShortcuts := [] }
    { action := 2, parameters := [], shortcuts := ["F1"], disabledShortcuts := [] }
    "F1" (by decide) (by decide) (by decide) (by decide) (by decide) (by decide)

/-- C11 as stated fails on the profile in which the actions 1 (`Copy`) and 2 (`Paste`) both
carry the enabled shortcut `F1`: the constructor validates the row of `Copy` while it is alone
in the model and leaves it with the normal status; only the row of `Paste` is seeded with the
error status.  `getProfile` on that model keeps `F1` in the entry of action 1. -/
theorem constructor_first_row_stays_normal_C11_counterexample :
    KeyboardProfileDialog.KeyboardProfileDialog sampleCollaborators twoActionsOnF1 =
      [{ status := ShortcutStatus.NormalStatus, toolTip := "", text := "Copy",
         identifier := some 1, parameters := [], shortcut := "F1", isDisabled := false },
       { status := ShortcutStatus.ErrorStatus, toolTip := "This shortcut already used by Copy",
         text := "Paste", identifier := some 2, parameters := [], shortcut := "F1",
         isDisabled := false }] ∧
    KeyboardProfileDialog.getProfile
        (KeyboardProfileDialog.KeyboardProfileDialog sampleCollaborators twoActionsOnF1) =
      [{ action := 1, parameters := [], shortcuts := ["F1"], disabledShortcuts := [] }] := by
  decide

end Otter
